import Mathlib

/-!
Shallow embedding of `Scientific/DistributedComputing/TaskManager.py`
(classes `Task`, `TaskQueue`, `TaskManager`, `Watchdog`).

Modelling conventions:
* Python dicts are association lists `List (κ × β)` with first-match lookup;
  all dicts built by the code have distinct keys, and `dictSet` replaces the
  first matching binding in place (as CPython does).
* Python `time.time()` values are passed in explicitly as an `Int` argument
  `now` to every operation that reads the clock.
* Exceptions and blocking are modelled with `Except (PyErr V)`: a condition
  wait that no other thread can wake in a sequential run is `PyErr.blocked`;
  `TaskManagerTermination` is `PyErr.termination`; `TaskRaisedException`
  is `PyErr.taskRaised`; built-in errors keep their Python names.
* `list.remove(task)` compares `Task` objects by identity (the class defines
  no `__eq__`); a task's `id` is fixed for its lifetime and unique among live
  tasks, so identity removal is modelled as removal of the first element with
  the same `id`.
* Task attributes that Python only assigns later (`completed`) are `Option`s;
  reading them while unset raises `PyErr.attributeError` exactly where the
  Python attribute access would.
* `parameters`, results, exceptions and tracebacks are opaque values of a
  type parameter `V`.
-/

set_option autoImplicit false

namespace TaskManagerPy

universe u

variable {V : Type} {κ : Type} {β : Type}

/-- First-match lookup in a Python dict modelled as an association list:
`d[k]` / `d.get(k)`. -/
def dictGet? [DecidableEq κ] (k : κ) : List (κ × β) → Option β
  | [] => none
  | (k', v) :: rest => if k = k' then some v else dictGet? k rest

/-- `d[k] = v`: replace the first binding of `k` in place, else append. -/
def dictSet [DecidableEq κ] (k : κ) (v : β) : List (κ × β) → List (κ × β)
  | [] => [(k, v)]
  | (k', v') :: rest =>
    if k = k' then (k, v) :: rest else (k', v') :: dictSet k v rest

/-- `del d[k]` for a key known to be present: drop the first binding of `k`
(no-op when absent; call sites guard presence where Python would raise). -/
def dictErase [DecidableEq κ] (k : κ) : List (κ × β) → List (κ × β)
  | [] => []
  | (k', v') :: rest => if k = k' then rest else (k', v') :: dictErase k rest

/-- `list.remove(x)`: drop the first element satisfying `p`; `none` models
the `ValueError` raised when no element matches. -/
def pyRemoveFirst? {α : Type u} (p : α → Bool) : List α → Option (List α)
  | [] => none
  | a :: rest =>
    if p a then some rest
    else match pyRemoveFirst? p rest with
         | none => none
         | some l => some (a :: l)

/-- Python exceptions reachable in `TaskManager.py`, plus `blocked` for a
condition-variable wait that nothing can wake in a sequential run. -/
inductive PyErr (V : Type) where
  | termination
  | taskRaised (task_id : String) (tag : String) (exception : V) (traceback : V)
  | keyError
  | valueError
  | indexError
  | typeError
  | attributeError
  | blocked
deriving DecidableEq, Repr

/-- Class `Task`: tag, parameters and id are set by `__init__`; the remaining
attributes start as `None` (here `none`); `completed` is only assigned by
`storeResult` / `storeException`. -/
structure Task (V : Type) where
  tag : String
  parameters : V
  id : String
  requesting_processor : Option Nat
  handling_processor : Option Nat
  request_time : Option Int
  start_time : Option Int
  end_time : Option Int
  completed : Option Bool
deriving DecidableEq, Repr

/-- Class `TaskQueue`: primary list, by-tag index, by-id index, terminate
flag. The condition variable `task_available` has no sequential content. -/
structure TaskQueue (V : Type) where
  tasks : List (Task V)
  tasks_by_tag : List (String × List (Task V))
  tasks_by_id : List (String × Task V)
  terminate : Bool
deriving DecidableEq, Repr

namespace TaskQueue

/-- `TaskQueue.__init__`. -/
def init (V : Type) : TaskQueue V :=
  { tasks := [], tasks_by_tag := [], tasks_by_id := [], terminate := false }

/-- `TaskQueue.__len__`. -/
def len (q : TaskQueue V) : Nat := q.tasks.length

/-- `TaskQueue.terminateWaitingThreads` (the `notifyAll` wakes waiters; in the
sequential model only the flag matters). -/
def terminateWaitingThreads (q : TaskQueue V) : TaskQueue V :=
  { q with terminate := true }

/-- `TaskQueue.addTask(task, in_front)`: appends to `tasks`, appends or
front-inserts into `tasks_by_tag[task.tag]` (after `setdefault(tag, [])`),
and sets `tasks_by_id[task.id]`. -/
def addTask (q : TaskQueue V) (task : Task V) (in_front : Bool) : TaskQueue V :=
  let tag_tasks := (dictGet? task.tag q.tasks_by_tag).getD []
  let tag_tasks' := if in_front then task :: tag_tasks else tag_tasks ++ [task]
  { q with
    tasks := q.tasks ++ [task]
    tasks_by_tag := dictSet task.tag tag_tasks' q.tasks_by_tag
    tasks_by_id := dictSet task.id task q.tasks_by_id }

/-- `TaskQueue._removeTask(task)`: `tasks.remove(task)`,
`tasks_by_tag[task.tag].remove(task)`, `del tasks_by_id[task.id]`, each
raising if the entry is missing. -/
def removeTask (q : TaskQueue V) (task : Task V) :
    Except (PyErr V) (TaskQueue V) := do
  let tasks' ← match pyRemoveFirst? (fun t => t.id == task.id) q.tasks with
    | none => Except.error PyErr.valueError
    | some l => pure l
  let tag_tasks ← match dictGet? task.tag q.tasks_by_tag with
    | none => Except.error PyErr.keyError
    | some l => pure l
  let tag_tasks' ← match pyRemoveFirst? (fun t => t.id == task.id) tag_tasks with
    | none => Except.error PyErr.valueError
    | some l => pure l
  let _ ← match dictGet? task.id q.tasks_by_id with
    | none => Except.error (PyErr.keyError (V := V))
    | some t => pure t
  pure { q with
         tasks := tasks'
         tasks_by_tag := dictSet task.tag tag_tasks' q.tasks_by_tag
         tasks_by_id := dictErase task.id q.tasks_by_id }

/-- `TaskQueue.firstTask`: the `while not self.tasks` loop checks for
termination only when the primary list is empty; with tasks present it
returns the head even on a terminated queue. An empty non-terminated queue
waits forever (`blocked`). -/
def firstTask (q : TaskQueue V) : Except (PyErr V) (Task V × TaskQueue V) :=
  match q.tasks with
  | [] =>
    if q.terminate then Except.error PyErr.termination
    else Except.error PyErr.blocked
  | task :: _ => do
    let q' ← q.removeTask task
    pure (task, q')

/-- `TaskQueue.firstTaskWithTag(tag)`: `tasks_by_tag.get(tag, None)` is falsy
when missing or empty; only then is termination checked / the thread blocked. -/
def firstTaskWithTag (q : TaskQueue V) (tag : String) :
    Except (PyErr V) (Task V × TaskQueue V) :=
  match (dictGet? tag q.tasks_by_tag).getD [] with
  | [] =>
    if q.terminate then Except.error PyErr.termination
    else Except.error PyErr.blocked
  | task :: _ => do
    let q' ← q.removeTask task
    pure (task, q')

/-- `TaskQueue.taskWithId(task_id)`: loop until `tasks_by_id.get(task_id)` is
not `None`; termination is checked only while the id is absent. -/
def taskWithId (q : TaskQueue V) (task_id : String) :
    Except (PyErr V) (Task V × TaskQueue V) :=
  match dictGet? task_id q.tasks_by_id with
  | none =>
    if q.terminate then Except.error PyErr.termination
    else Except.error PyErr.blocked
  | some task => do
    let q' ← q.removeTask task
    pure (task, q')

end TaskQueue

/-- Payloads stored in `TaskManager.results`: `storeResult` stores the plain
result, `storeException` stores the `(exception, traceback)` tuple. -/
inductive StoredValue (V : Type) where
  | plain (v : V)
  | excPair (exception : V) (traceback : V)
deriving DecidableEq, Repr

/-- Class `Watchdog` (without the background thread object): per-process ping
period and last-ping timestamp, plus the `done` flag. -/
structure Watchdog where
  ping_period : List (Nat × Int)
  last_ping : List (Nat × Int)
  done : Bool
deriving DecidableEq, Repr

namespace Watchdog

/-- `Watchdog.__init__` (thread creation has no sequential content). -/
def init : Watchdog :=
  { ping_period := [], last_ping := [], done := false }

/-- `Watchdog.registerProcess(process_id, ping_period)`; `time.time()` is the
argument `now`. -/
def registerProcess (w : Watchdog) (process_id : Nat) (ping_period : Int)
    (now : Int) : Watchdog :=
  { w with
    ping_period := dictSet process_id ping_period w.ping_period
    last_ping := dictSet process_id now w.last_ping }

/-- `Watchdog.unregisterProcess(process_id)`: both `del`s sit in one
`try`/`except KeyError: pass`, so a missing first key skips the second
deletion as well. -/
def unregisterProcess (w : Watchdog) (process_id : Nat) : Watchdog :=
  match dictGet? process_id w.ping_period with
  | none => w
  | some _ =>
    let w' := { w with ping_period := dictErase process_id w.ping_period }
    match dictGet? process_id w'.last_ping with
    | none => w'
    | some _ => { w' with last_ping := dictErase process_id w'.last_ping }

/-- `Watchdog.ping(process_id)`: unconditional timestamp update (creates the
entry if the process has no watchdog state). -/
def ping (w : Watchdog) (process_id : Nat) (now : Int) : Watchdog :=
  { w with last_ping := dictSet process_id now w.last_ping }

end Watchdog

/-- Class `TaskManager` (the `Pyro.core.ObjBase` base only provides remote
access; `lock` is a plain mutex with no sequential content). -/
structure TaskManager (V : Type) where
  id_counter : Nat
  waiting_tasks : TaskQueue V
  running_tasks : TaskQueue V
  finished_tasks : TaskQueue V
  results : List (String × StoredValue V)
  process_counter : Nat
  active_processes : List Nat
  tasks_by_process : List (List (Task V))
  watchdog : Option Watchdog
deriving DecidableEq, Repr

namespace TaskManager

/-- `TaskManager.__init__`. -/
def init (V : Type) : TaskManager V :=
  { id_counter := 0
    waiting_tasks := TaskQueue.init V
    running_tasks := TaskQueue.init V
    finished_tasks := TaskQueue.init V
    results := []
    process_counter := 0
    active_processes := []
    tasks_by_process := []
    watchdog := none }

/-- `TaskManager.registerProcess(watchdog_period=None)`: allocates the next
process id, appends it to the registry with an empty held-task list, and, when
a period is given, lazily creates the watchdog and registers the process
there. Returns `(process_id, state)`. -/
def registerProcess (m : TaskManager V) (watchdog_period : Option Int)
    (now : Int) : Nat × TaskManager V :=
  let process_id := m.process_counter
  let m' := { m with
              process_counter := m.process_counter + 1
              active_processes := m.active_processes ++ [process_id]
              tasks_by_process := m.tasks_by_process ++ [[]] }
  match watchdog_period with
  | none => (process_id, m')
  | some period =>
    let w := (m'.watchdog).getD Watchdog.init
    (process_id,
     { m' with watchdog := some (w.registerProcess process_id period now) })

/-- `TaskManager.numberOfActiveProcesses`. -/
def numberOfActiveProcesses (m : TaskManager V) : Nat :=
  m.active_processes.length

/-- `TaskManager.numberOfTasks`. -/
def numberOfTasks (m : TaskManager V) : Nat × Nat × Nat :=
  (m.waiting_tasks.len, m.running_tasks.len, m.finished_tasks.len)

/-- Python truthiness of the optional `process_id` argument: `None` and `0`
are both falsy. -/
def pyTruthy : Option Nat → Bool
  | none => false
  | some n => !(n == 0)

/-- `TaskManager.addTaskRequest(tag, parameters, process_id=None)`:
`task_id = tag + '_' + str(id_counter)`, counter incremented, a fresh
`WAITING` task built (`requesting_processor` assigned only under
`if process_id:`), `request_time` stamped, task enqueued, id returned. -/
def addTaskRequest (m : TaskManager V) (tag : String) (parameters : V)
    (process_id : Option Nat) (now : Int) : String × TaskManager V :=
  let task_id := tag ++ "_" ++ Nat.repr m.id_counter
  let new_task : Task V :=
    { tag := tag
      parameters := parameters
      id := task_id
      requesting_processor := if pyTruthy process_id then process_id else none
      handling_processor := none
      request_time := some now
      start_time := none
      end_time := none
      completed := none }
  (task_id,
   { m with
     id_counter := m.id_counter + 1
     waiting_tasks := m.waiting_tasks.addTask new_task false })

/-- `TaskManager._checkoutTask(task, process_id)`: stamps
`handling_processor` and `start_time` on the task, adds it to the running
queue, and (when `process_id` is given) appends it to that process's held
list (`IndexError` if the id was never registered). -/
def checkoutTask (m : TaskManager V) (task : Task V) (process_id : Option Nat)
    (now : Int) : Except (PyErr V) (TaskManager V) :=
  let task' := { task with handling_processor := process_id
                           start_time := some now }
  let m' := { m with running_tasks := m.running_tasks.addTask task' false }
  match process_id with
  | none => pure m'
  | some p =>
    match m'.tasks_by_process[p]? with
    | none => Except.error PyErr.indexError
    | some held =>
      pure { m' with tasks_by_process := m'.tasks_by_process.set p (held ++ [task']) }

/-- `TaskManager.getAnyTask(process_id=None)`: blocking pull of the first
waiting task, then checkout; returns `(task.id, task.tag, task.parameters)`. -/
def getAnyTask (m : TaskManager V) (process_id : Option Nat) (now : Int) :
    Except (PyErr V) ((String × String × V) × TaskManager V) := do
  let (task, wq) ← m.waiting_tasks.firstTask
  let m' ← checkoutTask { m with waiting_tasks := wq } task process_id now
  pure ((task.id, task.tag, task.parameters), m')

/-- `TaskManager.getTaskWithTag(tag, process_id=None)`: blocking pull of the
first waiting task with the tag, then checkout; returns
`(task.id, task.parameters)`. -/
def getTaskWithTag (m : TaskManager V) (tag : String) (process_id : Option Nat)
    (now : Int) : Except (PyErr V) ((String × V) × TaskManager V) := do
  let (task, wq) ← m.waiting_tasks.firstTaskWithTag tag
  let m' ← checkoutTask { m with waiting_tasks := wq } task process_id now
  pure ((task.id, task.parameters), m')

/-- `TaskManager._removeTask(task)`: when the task has a handling process,
remove it from that process's held list, swallowing the `ValueError` raised
when it is absent (`tasks_by_process[p]` itself raises `IndexError` for an
unknown process id). -/
def removeTask (m : TaskManager V) (task : Task V) :
    Except (PyErr V) (TaskManager V) :=
  match task.handling_processor with
  | none => pure m
  | some p =>
    match m.tasks_by_process[p]? with
    | none => Except.error PyErr.indexError
    | some held =>
      let held' := match pyRemoveFirst? (fun t => t.id == task.id) held with
        | none => held
        | some l => l
      pure { m with tasks_by_process := m.tasks_by_process.set p held' }

/-- `TaskManager.storeResult(task_id, result)`: record the result, pull the
task out of the running queue (blocking), stamp `end_time`, set
`completed = True`, move it to the finished queue, drop it from its handling
process's held list. -/
def storeResult (m : TaskManager V) (task_id : String) (result : V)
    (now : Int) : Except (PyErr V) (TaskManager V) := do
  let m₁ := { m with results := dictSet task_id (StoredValue.plain result) m.results }
  let (task, rq) ← m₁.running_tasks.taskWithId task_id
  let task' := { task with end_time := some now, completed := some true }
  let m₂ := { m₁ with
              running_tasks := rq
              finished_tasks := m₁.finished_tasks.addTask task' false }
  removeTask m₂ task'

/-- `TaskManager.storeException(task_id, exception, traceback)`: like
`storeResult` but records the `(exception, traceback)` pair and sets
`completed = False`. -/
def storeException (m : TaskManager V) (task_id : String) (exception : V)
    (traceback : V) (now : Int) : Except (PyErr V) (TaskManager V) := do
  let m₁ := { m with
              results := dictSet task_id (StoredValue.excPair exception traceback) m.results }
  let (task, rq) ← m₁.running_tasks.taskWithId task_id
  let task' := { task with end_time := some now, completed := some false }
  let m₂ := { m₁ with
              running_tasks := rq
              finished_tasks := m₁.finished_tasks.addTask task' false }
  removeTask m₂ task'

/-- `TaskManager.returnTask(task_id)`: pull the task out of the running queue
(blocking), drop it from its handling process's held list, clear `start_time`
and `handling_processor`, and re-enqueue it with `in_front=True`. -/
def returnTask (m : TaskManager V) (task_id : String) :
    Except (PyErr V) (TaskManager V) := do
  let (task, rq) ← m.running_tasks.taskWithId task_id
  let m₁ ← removeTask { m with running_tasks := rq } task
  let task' := { task with start_time := none, handling_processor := none }
  pure { m₁ with waiting_tasks := m₁.waiting_tasks.addTask task' true }

/-- `TaskManager.unregisterProcess(process_id)`: remove the id from
`active_processes` (`ValueError` if absent), take and clear its held-task
list (`IndexError` for an unknown id), `returnTask` each held task, and
finally drop the watchdog entry if a watchdog exists. -/
def unregisterProcess (m : TaskManager V) (process_id : Nat) :
    Except (PyErr V) (TaskManager V) := do
  let active' ← match pyRemoveFirst? (fun p => p == process_id) m.active_processes with
    | none => Except.error (PyErr.valueError (V := V))
    | some l => pure l
  let tasks ← match m.tasks_by_process[process_id]? with
    | none => Except.error (PyErr.indexError (V := V))
    | some l => pure l
  let m₁ := { m with
              active_processes := active'
              tasks_by_process := m.tasks_by_process.set process_id [] }
  let m₂ ← tasks.foldlM (fun acc t => acc.returnTask t.id) m₁
  match m₂.watchdog with
  | none => pure m₂
  | some w => pure { m₂ with watchdog := some (w.unregisterProcess process_id) }

/-- `TaskManager.ping(process_id)`: forwarded to the watchdog when one
exists. -/
def ping (m : TaskManager V) (process_id : Nat) (now : Int) : TaskManager V :=
  match m.watchdog with
  | none => m
  | some w => { m with watchdog := some (w.ping process_id now) }

/-- `TaskManager.getAnyResult()`: blocking pull of the first finished task,
lookup and delete its stored payload, then either return
`(task.id, task.tag, result)` or re-raise the stored exception as
`TaskRaisedException`. Reading the never-assigned `completed` attribute or
subscripting a non-pair payload would raise exactly as in Python. -/
def getAnyResult (m : TaskManager V) :
    Except (PyErr V) ((String × String × StoredValue V) × TaskManager V) := do
  let (task, fq) ← m.finished_tasks.firstTask
  let m₁ := { m with finished_tasks := fq }
  let result ← match dictGet? task.id m₁.results with
    | none => Except.error (PyErr.keyError (V := V))
    | some r => pure r
  let m₂ := { m₁ with results := dictErase task.id m₁.results }
  match task.completed with
  | none => Except.error PyErr.attributeError
  | some true => pure ((task.id, task.tag, result), m₂)
  | some false =>
    match result with
    | StoredValue.plain _ => Except.error PyErr.typeError
    | StoredValue.excPair e tb =>
      Except.error (PyErr.taskRaised task.id task.tag e tb)

/-- `TaskManager.getResultWithTag(tag)`: like `getAnyResult` but pulls the
first finished task with the tag and returns `(task.id, result)`. -/
def getResultWithTag (m : TaskManager V) (tag : String) :
    Except (PyErr V) ((String × StoredValue V) × TaskManager V) := do
  let (task, fq) ← m.finished_tasks.firstTaskWithTag tag
  let m₁ := { m with finished_tasks := fq }
  let result ← match dictGet? task.id m₁.results with
    | none => Except.error (PyErr.keyError (V := V))
    | some r => pure r
  let m₂ := { m₁ with results := dictErase task.id m₁.results }
  match task.completed with
  | none => Except.error PyErr.attributeError
  | some true => pure ((task.id, result), m₂)
  | some false =>
    match result with
    | StoredValue.plain _ => Except.error PyErr.typeError
    | StoredValue.excPair e tb =>
      Except.error (PyErr.taskRaised task.id task.tag e tb)

/-- `TaskManager.terminate()`: mark all three queues terminated. -/
def terminate (m : TaskManager V) : TaskManager V :=
  { m with
    waiting_tasks := m.waiting_tasks.terminateWaitingThreads
    running_tasks := m.running_tasks.terminateWaitingThreads
    finished_tasks := m.finished_tasks.terminateWaitingThreads }

end TaskManager

/-- The dead-process scan of `Watchdog.watchdogThread`: iterate over the
monitored ids, look up last ping (`KeyError` if missing) and period, and
collect every id whose delay exceeds twice its period, in iteration order. -/
def watchdogScan (V : Type) (w : Watchdog) (now : Int) :
    List Nat → Except (PyErr V) (List Nat)
  | [] => pure []
  | pid :: rest => do
    let lp ← match dictGet? pid w.last_ping with
      | none => Except.error (PyErr.keyError (V := V))
      | some t => pure t
    let pp ← match dictGet? pid w.ping_period with
      | none => Except.error (PyErr.keyError (V := V))
      | some t => pure t
    let tail ← watchdogScan V w now rest
    pure (if now - lp > 2 * pp then pid :: tail else tail)

/-- One cycle of `Watchdog.watchdogThread` against its task manager: compute
the dead processes from a snapshot of the watchdog maps, then unregister each
through `TaskManager.unregisterProcess` (the sleep and the `done` check have
no sequential content; without a watchdog the thread does not exist). -/
def TaskManager.watchdogCycle (m : TaskManager V) (now : Int) :
    Except (PyErr V) (TaskManager V) :=
  match m.watchdog with
  | none => pure m
  | some w => do
    let dead ← watchdogScan V w now (w.ping_period.map Prod.fst)
    dead.foldlM (fun acc pid => acc.unregisterProcess pid) m

/-! ### Operation alphabets for quantifying over call sequences -/

/-- The operations of class `TaskQueue`, for quantifying over arbitrary call
sequences on one queue. -/
inductive QOp (V : Type) where
  | addTask (task : Task V) (in_front : Bool)
  | firstTask
  | firstTaskWithTag (tag : String)
  | taskWithId (task_id : String)
  | terminateWaitingThreads
deriving Repr

/-- Apply one `TaskQueue` operation; a call that raises leaves the queue
unchanged (the raising paths of these methods mutate nothing first). -/
def qStep (op : QOp V) (q : TaskQueue V) : TaskQueue V :=
  match op with
  | QOp.addTask t f => q.addTask t f
  | QOp.firstTask =>
    match q.firstTask with
    | Except.ok (_, q') => q'
    | Except.error _ => q
  | QOp.firstTaskWithTag tag =>
    match q.firstTaskWithTag tag with
    | Except.ok (_, q') => q'
    | Except.error _ => q
  | QOp.taskWithId i =>
    match q.taskWithId i with
    | Except.ok (_, q') => q'
    | Except.error _ => q
  | QOp.terminateWaitingThreads => q.terminateWaitingThreads

/-- Run a sequence of `TaskQueue` operations. -/
def qRun (ops : List (QOp V)) (q : TaskQueue V) : TaskQueue V :=
  ops.foldl (fun q op => qStep op q) q

/-- The public operations of class `TaskManager`, for quantifying over
arbitrary call sequences against one coordinator. -/
inductive Op (V : Type) where
  | registerProcess (watchdog_period : Option Int) (now : Int)
  | unregisterProcess (process_id : Nat)
  | ping (process_id : Nat) (now : Int)
  | addTaskRequest (tag : String) (parameters : V) (process_id : Option Nat) (now : Int)
  | getAnyTask (process_id : Option Nat) (now : Int)
  | getTaskWithTag (tag : String) (process_id : Option Nat) (now : Int)
  | storeResult (task_id : String) (result : V) (now : Int)
  | storeException (task_id : String) (exception : V) (traceback : V) (now : Int)
  | returnTask (task_id : String)
  | getAnyResult
  | getResultWithTag (tag : String)
  | terminate
  | watchdogCycle (now : Int)
deriving Repr

/-- Apply one `TaskManager` operation, discarding its return value. -/
def step (op : Op V) (m : TaskManager V) : Except (PyErr V) (TaskManager V) :=
  match op with
  | Op.registerProcess period now => pure (m.registerProcess period now).2
  | Op.unregisterProcess pid => m.unregisterProcess pid
  | Op.ping pid now => pure (m.ping pid now)
  | Op.addTaskRequest tag p pid now => pure (m.addTaskRequest tag p pid now).2
  | Op.getAnyTask pid now => do
    let (_, m') ← m.getAnyTask pid now
    pure m'
  | Op.getTaskWithTag tag pid now => do
    let (_, m') ← m.getTaskWithTag tag pid now
    pure m'
  | Op.storeResult i r now => m.storeResult i r now
  | Op.storeException i e tb now => m.storeException i e tb now
  | Op.returnTask i => m.returnTask i
  | Op.getAnyResult => do
    let (_, m') ← m.getAnyResult
    pure m'
  | Op.getResultWithTag tag => do
    let (_, m') ← m.getResultWithTag tag
    pure m'
  | Op.terminate => pure m.terminate
  | Op.watchdogCycle now => m.watchdogCycle now

/-- Run a sequence of `TaskManager` operations; the run aborts at the first
operation that raises or blocks. -/
def runOps (ops : List (Op V)) (m : TaskManager V) :
    Except (PyErr V) (TaskManager V) :=
  ops.foldlM (fun m op => step op m) m

/-! ### Specification-side predicates and helpers -/

/-- The by-tag bucket the queue's methods read:
`tasks_by_tag.get(tag, None)` with falsy default. -/
def tagList (q : TaskQueue V) (tag : String) : List (Task V) :=
  (dictGet? tag q.tasks_by_tag).getD []

/-- The ids of the tasks in a queue's primary list. -/
def qids (q : TaskQueue V) : List String := q.tasks.map Task.id

/-- Internal consistency of one `TaskQueue`: the live tasks have pairwise
distinct ids, the by-id dict has distinct keys, every by-tag bucket holds
exactly the primary-list tasks with that tag (as a multiset), and the by-id
dict agrees with first-match search of the primary list. -/
structure TaskQueue.Consistent (q : TaskQueue V) : Prop where
  ids_nodup : (q.tasks.map Task.id).Nodup
  idkeys_nodup : (q.tasks_by_id.map Prod.fst).Nodup
  tag_perm : ∀ tag, (tagList q tag).Perm (q.tasks.filter (fun t => t.tag == tag))
  id_find : ∀ i, dictGet? i q.tasks_by_id = q.tasks.find? (fun t => t.id == i)

/-- The queue produced by a successful `TaskQueue._removeTask(task)`. -/
def TaskQueue.erased (q : TaskQueue V) (task : Task V) : TaskQueue V :=
  { tasks := q.tasks.eraseP (fun t => t.id == task.id)
    tasks_by_tag :=
      dictSet task.tag ((tagList q task.tag).eraseP (fun t => t.id == task.id))
        q.tasks_by_tag
    tasks_by_id := dictErase task.id q.tasks_by_id
    terminate := q.terminate }

/-- Global invariant of a `TaskManager`: the three queues are internally
consistent, no task id sits in two primary lists, and every live task id has
the shape `tag + "_" + str(n)` for an already-spent counter value `n`. -/
structure TaskManager.Inv (m : TaskManager V) : Prop where
  wq : m.waiting_tasks.Consistent
  rq : m.running_tasks.Consistent
  fq : m.finished_tasks.Consistent
  disj_wr : ∀ i ∈ qids m.waiting_tasks, i ∉ qids m.running_tasks
  disj_wf : ∀ i ∈ qids m.waiting_tasks, i ∉ qids m.finished_tasks
  disj_rf : ∀ i ∈ qids m.running_tasks, i ∉ qids m.finished_tasks
  bounded : ∀ t ∈ m.waiting_tasks.tasks ++ m.running_tasks.tasks
      ++ m.finished_tasks.tasks,
      ∃ n, n < m.id_counter ∧ t.id = t.tag ++ "_" ++ Nat.repr n

/-! ### The submit / compute / retrieve scenario of the specification -/

/-- Submit a batch of `(tag, parameters)` requests through `addTaskRequest`,
collecting the returned task ids. -/
def submitAll (now : Int) : List (String × V) → TaskManager V →
    List String × TaskManager V
  | [], m => ([], m)
  | (tag, p) :: rest, m =>
    let (task_id, m') := m.addTaskRequest tag p none now
    let (task_ids, m'') := submitAll now rest m'
    (task_id :: task_ids, m'')

/-- One worker/master cycle: `getAnyTask`, `storeResult` for the task just
obtained, `getAnyResult`. -/
def oneCycle (m : TaskManager V) (result : V) (now : Int) :
    Except (PyErr V) ((String × String × StoredValue V) × TaskManager V) := do
  let (out, m₁) ← m.getAnyTask none now
  let m₂ ← m₁.storeResult out.1 result now
  m₂.getAnyResult

/-- Run one cycle per stored result, collecting what `getAnyResult`
returns. -/
def runCycles (now : Int) : List V → TaskManager V →
    Except (PyErr V) (List (String × String × StoredValue V) × TaskManager V)
  | [], m => pure ([], m)
  | r :: rs, m => do
    let (o, m') ← oneCycle m r now
    let (os, m'') ← runCycles now rs m'
    pure (o :: os, m'')

/-- The task objects `addTaskRequest` builds for a batch of requests when the
counter starts at `k` (no requesting process, request time `now`). -/
def pendingTasks (now : Int) : Nat → List (String × V) → List (Task V)
  | _, [] => []
  | k, (tag, p) :: rest =>
    { tag := tag
      parameters := p
      id := tag ++ "_" ++ Nat.repr k
      requesting_processor := none
      handling_processor := none
      request_time := some now
      start_time := none
      end_time := none
      completed := none } :: pendingTasks now (k + 1) rest

/-- The triples `getAnyResult` is expected to hand back for the scenario:
submission-order ids, the submitted tag, and the stored result. -/
def expectedRetrieved : Nat → List (String × V) → List V →
    List (String × String × StoredValue V)
  | k, (tag, _) :: reqs, r :: ress =>
    (tag ++ "_" ++ Nat.repr k, tag, StoredValue.plain r)
      :: expectedRetrieved (k + 1) reqs ress
  | _, _, _ => []

/-! ### Association-list dictionary lemmas -/

theorem dictGet?_set_self [DecidableEq κ] (k : κ) (v : β) (d : List (κ × β)) :
    dictGet? k (dictSet k v d) = some v := by
  induction d with
  | nil => simp [dictGet?, dictSet]
  | cons p rest ih =>
    by_cases h : k = p.1
    · simp [dictGet?, dictSet, h]
    · simp [dictGet?, dictSet, h, ih]

theorem dictGet?_set_ne [DecidableEq κ] {k k' : κ} (v : β) (d : List (κ × β))
    (h : k ≠ k') : dictGet? k (dictSet k' v d) = dictGet? k d := by
  induction d with
  | nil => simp [dictGet?, dictSet, h]
  | cons p rest ih =>
    by_cases h' : k' = p.1
    · subst h'
      simp [dictGet?, dictSet, h]
    · by_cases h'' : k = p.1 <;> simp [dictGet?, dictSet, h', h'', ih]

theorem dictGet?_erase_ne [DecidableEq κ] {k k' : κ} (d : List (κ × β))
    (h : k ≠ k') : dictGet? k (dictErase k' d) = dictGet? k d := by
  induction d with
  | nil => simp [dictErase]
  | cons p rest ih =>
    by_cases h' : k' = p.1
    · subst h'
      simp [dictGet?, dictErase, h]
    · by_cases h'' : k = p.1 <;> simp [dictGet?, dictErase, h', h'', ih]

theorem dictGet?_eq_none_of_not_mem {k : κ} [DecidableEq κ] {d : List (κ × β)}
    (h : k ∉ d.map Prod.fst) : dictGet? k d = none := by
  induction d with
  | nil => rfl
  | cons p rest ih =>
    simp only [List.map_cons, List.mem_cons, not_or] at h
    simp [dictGet?, h.1, ih h.2]

theorem not_mem_keys_dictErase_self [DecidableEq κ] {k : κ} {d : List (κ × β)}
    (hnd : (d.map Prod.fst).Nodup) : k ∉ (dictErase k d).map Prod.fst := by
  induction d with
  | nil => simp [dictErase]
  | cons p rest ih =>
    simp only [List.map_cons, List.nodup_cons] at hnd
    by_cases h : k = p.1
    · subst h
      simpa [dictErase] using hnd.1
    · simp only [dictErase, if_neg h, List.map_cons, List.mem_cons, not_or]
      exact ⟨h, ih hnd.2⟩

theorem dictGet?_erase_self [DecidableEq κ] {k : κ} (d : List (κ × β))
    (hnd : (d.map Prod.fst).Nodup) : dictGet? k (dictErase k d) = none :=
  dictGet?_eq_none_of_not_mem (not_mem_keys_dictErase_self hnd)

theorem mem_keys_dictSet [DecidableEq κ] {k' k : κ} {v : β} {d : List (κ × β)} :
    k' ∈ (dictSet k v d).map Prod.fst → k' ∈ d.map Prod.fst ∨ k' = k := by
  induction d with
  | nil =>
    intro h
    simp [dictSet] at h
    exact Or.inr h
  | cons p rest ih =>
    intro h
    by_cases hk : k = p.1
    · simp [dictSet, hk] at h
      rcases h with h | h
      · exact Or.inr (hk ▸ h)
      · exact Or.inl (by simp [h])
    · simp only [dictSet, if_neg hk, List.map_cons, List.mem_cons] at h
      rcases h with h | h
      · exact Or.inl (by simp [h])
      · rcases ih h with h' | h'
        · exact Or.inl (by simp [h'])
        · exact Or.inr h'

theorem keys_dictSet_nodup [DecidableEq κ] (k : κ) (v : β) (d : List (κ × β))
    (hnd : (d.map Prod.fst).Nodup) : ((dictSet k v d).map Prod.fst).Nodup := by
  induction d with
  | nil => simp [dictSet]
  | cons p rest ih =>
    simp only [List.map_cons, List.nodup_cons] at hnd
    by_cases h : k = p.1
    · subst h
      simpa [dictSet, List.nodup_cons] using hnd
    · simp only [dictSet, if_neg h, List.map_cons, List.nodup_cons]
      refine ⟨fun hc => ?_, ih hnd.2⟩
      rcases mem_keys_dictSet hc with h' | h'
      · exact hnd.1 h'
      · exact h h'.symm

theorem keys_dictErase_sublist [DecidableEq κ] (k : κ) (d : List (κ × β)) :
    ((dictErase k d).map Prod.fst).Sublist (d.map Prod.fst) := by
  induction d with
  | nil => simp [dictErase]
  | cons p rest ih =>
    by_cases h : k = p.1
    · simp only [dictErase, if_pos h, List.map_cons]
      exact (List.sublist_cons_self _ _)
    · simpa [dictErase, h] using ih.cons₂ p.1

theorem keys_dictErase_nodup [DecidableEq κ] (k : κ) (d : List (κ × β))
    (hnd : (d.map Prod.fst).Nodup) : ((dictErase k d).map Prod.fst).Nodup :=
  hnd.sublist (keys_dictErase_sublist k d)

theorem pyRemoveFirst?_eq {α : Type u} (p : α → Bool) (l : List α) :
    pyRemoveFirst? p l = if l.any p then some (l.eraseP p) else none := by
  induction l with
  | nil => simp [pyRemoveFirst?]
  | cons a rest ih =>
    by_cases h : p a
    · simp [pyRemoveFirst?, h, List.eraseP_cons, List.any_cons]
    · simp only [pyRemoveFirst?, if_neg h, ih, List.eraseP_cons, List.any_cons, h,
        Bool.false_or]
      by_cases h' : rest.any p <;> simp [h']

/-! ### `find?` and `eraseP` helpers for tasks with distinct ids -/

theorem find?_of_id_nodup {l : List (Task V)} {t : Task V}
    (hnd : (l.map Task.id).Nodup) (ht : t ∈ l) :
    l.find? (fun x => x.id == t.id) = some t := by
  induction l with
  | nil => cases ht
  | cons a rest ih =>
    simp only [List.map_cons, List.nodup_cons] at hnd
    rcases List.mem_cons.mp ht with h | h
    · subst h
      simp [List.find?]
    · have hne : (a.id == t.id) = false := by
        simp only [beq_eq_false_iff_ne, ne_eq]
        intro hc
        exact hnd.1 (hc ▸ List.mem_map_of_mem Task.id h)
      simp [List.find?, hne, ih hnd.2 h]

theorem find?_erase_of_not [DecidableEq V] {l : List (Task V)} {t : Task V}
    {p : Task V → Bool}
    (hp : p t = false) : (l.erase t).find? p = l.find? p := by
  induction l with
  | nil => simp
  | cons a rest ih =>
    by_cases h : a = t
    · subst h
      simp [List.erase_cons, List.find?, hp]
    · have : (a == t) = false := beq_eq_false_iff_ne.mpr h
      cases hpa : p a <;> simp [List.erase_cons, this, List.find?, hpa, ih]

theorem eraseP_id_eq_erase [DecidableEq V] {l : List (Task V)} {t : Task V}
    (hnd : (l.map Task.id).Nodup) (ht : t ∈ l) :
    l.eraseP (fun x => x.id == t.id) = l.erase t := by
  induction l with
  | nil => simp
  | cons a rest ih =>
    simp only [List.map_cons, List.nodup_cons] at hnd
    rcases List.mem_cons.mp ht with h | h
    · subst h
      simp [List.eraseP_cons, List.erase_cons]
    · have hne : (a.id == t.id) = false := by
        simp only [beq_eq_false_iff_ne, ne_eq]
        intro hc
        exact hnd.1 (hc ▸ List.mem_map_of_mem Task.id h)
      have hne' : (a == t) = false := by
        simp only [beq_eq_false_iff_ne, ne_eq]
        intro hc
        subst hc
        simp at hne
      simp [List.eraseP_cons, hne, List.erase_cons, hne', ih hnd.2 h]

theorem filter_eraseP_comm {l : List (Task V)} {p q : Task V → Bool}
    (h : ∀ a ∈ l, p a = true → q a = true) :
    (l.filter q).eraseP p = (l.eraseP p).filter q := by
  induction l with
  | nil => simp
  | cons a rest ih =>
    have hrest : ∀ a ∈ rest, p a = true → q a = true :=
      fun a ha => h a (List.mem_cons_of_mem _ ha)
    by_cases hpa : p a = true
    · have hqa := h a (List.mem_cons_self a rest) hpa
      simp [List.filter_cons, List.eraseP_cons, hpa, hqa]
    · have hpa' : p a = false := by simpa using hpa
      by_cases hqa : q a = true
      · simp [List.filter_cons, List.eraseP_cons, hpa', hqa, ih hrest]
      · have hqa' : q a = false := by simpa using hqa
        simp [List.filter_cons, List.eraseP_cons, hpa', hqa', ih hrest]

/-! ### Decimal representation: `tag + "_" + str(n)` is collision-free -/

theorem toDigitsCore_append (b : Nat) :
    ∀ (fuel n : Nat) (ds : List Char),
      Nat.toDigitsCore b fuel n ds = Nat.toDigitsCore b fuel n [] ++ ds := by
  intro fuel
  induction fuel with
  | zero => intro n ds; simp [Nat.toDigitsCore]
  | succ f ih =>
    intro n ds
    simp only [Nat.toDigitsCore]
    by_cases h : n / b = 0
    · simp [h]
    · simp only [if_neg h]
      rw [ih (n / b) [Nat.digitChar (n % b)],
          ih (n / b) (Nat.digitChar (n % b) :: ds), List.append_assoc]
      rfl

theorem toDigitsCore_fuel_eq (b : Nat) (hb : 2 ≤ b) :
    ∀ (n f₁ f₂ : Nat), n < f₁ → n < f₂ →
      Nat.toDigitsCore b f₁ n [] = Nat.toDigitsCore b f₂ n [] := by
  intro n
  induction n using Nat.strong_induction_on with
  | _ n ih =>
    intro f₁ f₂ h₁ h₂
    match f₁, f₂ with
    | g₁ + 1, g₂ + 1 =>
      simp only [Nat.toDigitsCore]
      by_cases h : n / b = 0
      · simp [h]
      · simp only [if_neg h]
        have hn : 0 < n := by
          rcases Nat.eq_zero_or_pos n with h0 | h0
          · subst h0; simp at h
          · exact h0
        have hd : n / b < n := Nat.div_lt_self hn (by omega)
        rw [toDigitsCore_append b g₁, toDigitsCore_append b g₂,
            ih (n / b) hd g₁ g₂ (by omega) (by omega)]

theorem toDigits_lt_ten {n : Nat} (h : n < 10) :
    Nat.toDigits 10 n = [Nat.digitChar n] := by
  have h1 : n / 10 = 0 := Nat.div_eq_of_lt h
  have h2 : n % 10 = n := Nat.mod_eq_of_lt h
  simp [Nat.toDigits, Nat.toDigitsCore, h1, h2]

theorem toDigits_ge_ten {n : Nat} (h : 10 ≤ n) :
    Nat.toDigits 10 n = Nat.toDigits 10 (n / 10) ++ [Nat.digitChar (n % 10)] := by
  have h0 : n / 10 ≠ 0 := by
    have := Nat.div_pos h (by omega)
    omega
  have hd : n / 10 < n := Nat.div_lt_self (by omega) (by omega)
  simp only [Nat.toDigits, Nat.toDigitsCore, if_neg h0]
  rw [toDigitsCore_append 10 n (n / 10)]
  congr 1
  exact toDigitsCore_fuel_eq 10 (by omega) (n / 10) n (n / 10 + 1) hd (Nat.lt_succ_self _)

theorem toDigits_ne_nil (n : Nat) : Nat.toDigits 10 n ≠ [] := by
  rcases Nat.lt_or_ge n 10 with h | h
  · simp [toDigits_lt_ten h]
  · simp [toDigits_ge_ten h]

theorem digitChar_inj {a b : Nat} (ha : a < 10) (hb : b < 10)
    (h : Nat.digitChar a = Nat.digitChar b) : a = b := by
  interval_cases a <;> interval_cases b <;> simp_all [Nat.digitChar]

theorem digitChar_ne_underscore {a : Nat} (ha : a < 10) :
    Nat.digitChar a ≠ '_' := by
  interval_cases a <;> simp [Nat.digitChar]

theorem toDigits_no_underscore (n : Nat) :
    ∀ c ∈ Nat.toDigits 10 n, c ≠ '_' := by
  induction n using Nat.strong_induction_on with
  | _ n ih =>
    rcases Nat.lt_or_ge n 10 with h | h
    · intro c hc
      rw [toDigits_lt_ten h] at hc
      simp at hc
      subst hc
      exact digitChar_ne_underscore h
    · intro c hc
      rw [toDigits_ge_ten h] at hc
      rcases List.mem_append.mp hc with hc | hc
      · exact ih (n / 10) (Nat.div_lt_self (by omega) (by omega)) c hc
      · simp at hc
        subst hc
        exact digitChar_ne_underscore (Nat.mod_lt n (by omega))

theorem toDigits_ten_inj : ∀ {m n : Nat},
    Nat.toDigits 10 m = Nat.toDigits 10 n → m = n := by
  intro m
  induction m using Nat.strong_induction_on with
  | _ m ih =>
    intro n h
    rcases Nat.lt_or_ge m 10 with hm | hm <;> rcases Nat.lt_or_ge n 10 with hn | hn
    · rw [toDigits_lt_ten hm, toDigits_lt_ten hn] at h
      exact digitChar_inj hm hn (by simpa using h)
    · rw [toDigits_lt_ten hm, toDigits_ge_ten hn] at h
      have := congrArg List.length h
      simp at this
      exact absurd this (toDigits_ne_nil (n / 10))
    · rw [toDigits_ge_ten hm, toDigits_lt_ten hn] at h
      have := congrArg List.length h
      simp at this
      exact absurd this (toDigits_ne_nil (m / 10))
    · rw [toDigits_ge_ten hm, toDigits_ge_ten hn] at h
      have h2 := List.append_inj' h (by simp)
      have hdiv : m / 10 = n / 10 :=
        ih (m / 10) (Nat.div_lt_self (by omega) (by omega)) h2.1
      have hmod : m % 10 = n % 10 :=
        digitChar_inj (Nat.mod_lt m (by omega)) (Nat.mod_lt n (by omega))
          (by simpa using h2.2)
      omega

theorem splitLastUnderscore : ∀ (as bs l m : List Char),
    (∀ c ∈ as, c ≠ '_') → (∀ c ∈ bs, c ≠ '_') →
    as ++ '_' :: l = bs ++ '_' :: m → as = bs ∧ l = m := by
  intro as
  induction as with
  | nil =>
    intro bs l m _ hb h
    cases bs with
    | nil => simpa using h
    | cons c bs' =>
      simp only [List.nil_append, List.cons_append, List.cons.injEq] at h
      exact absurd h.1.symm (hb c (List.mem_cons_self c bs'))
  | cons a as' ih =>
    intro bs l m ha hb h
    cases bs with
    | nil =>
      simp only [List.cons_append, List.nil_append, List.cons.injEq] at h
      exact absurd h.1 (ha a (List.mem_cons_self a as'))
    | cons c bs' =>
      simp only [List.cons_append, List.cons.injEq] at h
      have := ih bs' l m (fun x hx => ha x (List.mem_cons_of_mem a hx))
        (fun x hx => hb x (List.mem_cons_of_mem c hx)) h.2
      exact ⟨by rw [h.1, this.1], this.2⟩

theorem repr_data (n : Nat) : (Nat.repr n).data = Nat.toDigits 10 n := rfl

theorem taskId_inj {t₁ t₂ : String} {n₁ n₂ : Nat}
    (h : t₁ ++ "_" ++ Nat.repr n₁ = t₂ ++ "_" ++ Nat.repr n₂) :
    t₁ = t₂ ∧ n₁ = n₂ := by
  have hdata := congrArg String.data h
  simp only [String.data_append, repr_data] at hdata
  have hrev := congrArg List.reverse hdata
  simp only [List.reverse_append, List.reverse_cons, List.reverse_nil,
    List.nil_append, List.append_assoc, List.singleton_append] at hrev
  have hsplit := splitLastUnderscore _ _ _ _
    (fun c hc => toDigits_no_underscore n₁ c (List.mem_reverse.mp hc))
    (fun c hc => toDigits_no_underscore n₂ c (List.mem_reverse.mp hc)) hrev
  constructor
  · apply String.ext
    have := congrArg List.reverse hsplit.2
    simpa using this
  · apply toDigits_ten_inj
    have := congrArg List.reverse hsplit.1
    simpa using this

/-! ### Queue operations preserve consistency -/

theorem filter_eraseP_of_not {l : List (Task V)} {p q : Task V → Bool}
    (h : ∀ a ∈ l, p a = true → q a = false) :
    (l.eraseP p).filter q = l.filter q := by
  induction l with
  | nil => simp
  | cons a rest ih =>
    have hrest : ∀ a ∈ rest, p a = true → q a = false :=
      fun a ha => h a (List.mem_cons_of_mem _ ha)
    by_cases hpa : p a = true
    · have hqa := h a (List.mem_cons_self a rest) hpa
      simp [List.eraseP_cons, List.filter_cons, hpa, hqa]
    · have hpa' : p a = false := by simpa using hpa
      by_cases hqa : q a = true
      · simp [List.eraseP_cons, List.filter_cons, hpa', hqa, ih hrest]
      · have hqa' : q a = false := by simpa using hqa
        simp [List.eraseP_cons, List.filter_cons, hpa', hqa', ih hrest]

theorem mem_of_mem_tagList {q : TaskQueue V} {tag : String} {t : Task V}
    (hc : q.Consistent) (ht : t ∈ tagList q tag) : t ∈ q.tasks ∧ t.tag = tag := by
  have := (hc.tag_perm tag).mem_iff.mp ht
  have h2 := List.mem_filter.mp this
  exact ⟨h2.1, by simpa using h2.2⟩

theorem id_eq_of_mem {l : List (Task V)} {a t : Task V}
    (hnd : (l.map Task.id).Nodup) (ha : a ∈ l) (ht : t ∈ l)
    (h : a.id = t.id) : a = t :=
  List.inj_on_of_nodup_map hnd ha ht h

theorem qids_addTask (q : TaskQueue V) (t : Task V) (f : Bool) :
    qids (q.addTask t f) = qids q ++ [t.id] := by
  simp [qids, TaskQueue.addTask]

theorem tasks_addTask (q : TaskQueue V) (t : Task V) (f : Bool) :
    (q.addTask t f).tasks = q.tasks ++ [t] := rfl

theorem terminate_addTask (q : TaskQueue V) (t : Task V) (f : Bool) :
    (q.addTask t f).terminate = q.terminate := rfl

theorem tagList_addTask_front (q : TaskQueue V) (t : Task V) :
    tagList (q.addTask t true) t.tag = t :: tagList q t.tag := by
  simp only [tagList, TaskQueue.addTask]
  rw [dictGet?_set_self]
  simp

theorem tagList_addTask_back (q : TaskQueue V) (t : Task V) :
    tagList (q.addTask t false) t.tag = tagList q t.tag ++ [t] := by
  simp only [tagList, TaskQueue.addTask]
  rw [dictGet?_set_self]
  simp

theorem tagList_addTask_ne (q : TaskQueue V) (t : Task V) (f : Bool)
    {tag : String} (h : tag ≠ t.tag) :
    tagList (q.addTask t f) tag = tagList q tag := by
  simp only [tagList, TaskQueue.addTask]
  rw [dictGet?_set_ne _ _ h]

theorem addTask_consistent {q : TaskQueue V} {t : Task V} (f : Bool)
    (hc : q.Consistent) (hfresh : t.id ∉ qids q) :
    (q.addTask t f).Consistent := by
  have hfind : q.tasks.find? (fun x => x.id == t.id) = none := by
    rw [List.find?_eq_none]
    intro x hx hbeq
    exact hfresh (beq_iff_eq.mp hbeq ▸ List.mem_map_of_mem Task.id hx)
  constructor
  · have hmain : (q.tasks.map Task.id ++ [t.id]).Nodup := by
      rw [List.nodup_append]
      refine ⟨hc.ids_nodup, List.nodup_singleton _, fun i hi hmem => ?_⟩
      rw [List.mem_singleton] at hmem
      exact hfresh (hmem ▸ hi)
    simpa [TaskQueue.addTask] using hmain
  · exact keys_dictSet_nodup _ _ _ hc.idkeys_nodup
  · intro tag
    by_cases htag : tag = t.tag
    · subst htag
      have hfilt : [t].filter (fun x => x.tag == t.tag) = [t] := by simp
      rw [tasks_addTask, List.filter_append, hfilt]
      cases f
      · rw [tagList_addTask_back]
        exact (hc.tag_perm t.tag).append_right [t]
      · rw [tagList_addTask_front]
        exact ((hc.tag_perm t.tag).cons t).trans
          (List.perm_append_singleton t _).symm
    · rw [tagList_addTask_ne q t f htag, tasks_addTask, List.filter_append]
      have hfilt : [t].filter (fun x => x.tag == tag) = [] := by
        have : (t.tag == tag) = false :=
          beq_eq_false_iff_ne.mpr fun h => htag h.symm
        simp [this]
      rw [hfilt, List.append_nil]
      exact hc.tag_perm tag
  · intro i
    by_cases hi : i = t.id
    · subst hi
      simp only [TaskQueue.addTask]
      rw [dictGet?_set_self, List.find?_append, hfind]
      simp [List.find?]
    · simp only [TaskQueue.addTask]
      rw [dictGet?_set_ne _ _ hi, hc.id_find, List.find?_append]
      have hnone : ([t].find? (fun x => x.id == i)) = none := by
        have : (t.id == i) = false := beq_eq_false_iff_ne.mpr fun h => hi h.symm
        simp [List.find?, this]
      rw [hnone, Option.or_none]

theorem tasks_erased {q : TaskQueue V} {t : Task V} [DecidableEq V]
    (hc : q.Consistent) (ht : t ∈ q.tasks) :
    (q.erased t).tasks = q.tasks.erase t := by
  simp only [TaskQueue.erased]
  exact eraseP_id_eq_erase hc.ids_nodup ht

theorem terminate_erased (q : TaskQueue V) (t : Task V) :
    (q.erased t).terminate = q.terminate := rfl

theorem tagList_erased_self (q : TaskQueue V) (t : Task V) :
    tagList (q.erased t) t.tag
      = (tagList q t.tag).eraseP (fun x => x.id == t.id) := by
  simp only [tagList, TaskQueue.erased]
  rw [dictGet?_set_self]
  rfl

theorem tagList_erased_ne (q : TaskQueue V) (t : Task V) {tag : String}
    (h : tag ≠ t.tag) : tagList (q.erased t) tag = tagList q tag := by
  simp only [tagList, TaskQueue.erased]
  rw [dictGet?_set_ne _ _ h]

theorem erased_consistent [DecidableEq V] {q : TaskQueue V} {t : Task V}
    (hc : q.Consistent) (ht : t ∈ q.tasks) : (q.erased t).Consistent := by
  have hsub : (q.erased t).tasks.Sublist q.tasks := by
    simp only [TaskQueue.erased]
    exact List.eraseP_sublist q.tasks
  have hinj : ∀ a ∈ q.tasks, (a.id == t.id) = true → a = t := by
    intro a ha hbeq
    exact id_eq_of_mem hc.ids_nodup ha ht (beq_iff_eq.mp hbeq)
  constructor
  · exact hc.ids_nodup.sublist (hsub.map Task.id)
  · exact keys_dictErase_nodup _ _ hc.idkeys_nodup
  · intro tag
    by_cases htag : tag = t.tag
    · subst htag
      rw [tagList_erased_self]
      have hcomm : ((q.tasks.filter (fun x => x.tag == t.tag)).eraseP
          (fun x => x.id == t.id))
          = (q.tasks.eraseP (fun x => x.id == t.id)).filter
            (fun x => x.tag == t.tag) := by
        apply filter_eraseP_comm
        intro a ha hbeq
        rw [hinj a ha hbeq]
        exact beq_self_eq_true t.tag
      have hpair : (tagList q t.tag).Pairwise
          (fun a b => (a.id == t.id) = true → (b.id == t.id) = true → False) := by
        have hnd : ((tagList q t.tag).map Task.id).Nodup := by
          have hfilt : ((q.tasks.filter (fun x => x.tag == t.tag)).map Task.id).Nodup :=
            hc.ids_nodup.sublist ((List.filter_sublist q.tasks).map Task.id)
          exact (((hc.tag_perm t.tag).map Task.id).nodup_iff).mpr hfilt
        have := (List.pairwise_map.mp hnd)
        exact this.imp (fun hab h1 h2 =>
          hab (by rw [beq_iff_eq.mp h1, beq_iff_eq.mp h2]))
      have := ((hc.tag_perm t.tag).eraseP (fun x => x.id == t.id) hpair)
      rw [hcomm] at this
      simpa [TaskQueue.erased] using this
    · rw [tagList_erased_ne q t htag]
      have hnone : (q.tasks.eraseP (fun x => x.id == t.id)).filter
          (fun x => x.tag == tag) = q.tasks.filter (fun x => x.tag == tag) := by
        apply filter_eraseP_of_not
        intro a ha hbeq
        rw [hinj a ha hbeq]
        exact beq_eq_false_iff_ne.mpr fun h => htag h.symm
      have := hc.tag_perm tag
      simp only [TaskQueue.erased]
      rw [hnone]
      exact this
  · intro i
    by_cases hi : i = t.id
    · subst hi
      simp only [TaskQueue.erased]
      rw [dictGet?_erase_self _ hc.idkeys_nodup]
      symm
      rw [List.find?_eq_none]
      intro x hx hbeq
      have hxt : x ∈ q.tasks := (List.eraseP_sublist q.tasks).mem hx
      have := hinj x hxt hbeq
      subst this
      rw [eraseP_id_eq_erase hc.ids_nodup ht] at hx
      exact (List.Nodup.of_map Task.id hc.ids_nodup).not_mem_erase hx
    · simp only [TaskQueue.erased]
      rw [dictGet?_erase_ne _ fun h => hi h, hc.id_find,
          eraseP_id_eq_erase hc.ids_nodup ht]
      symm
      apply find?_erase_of_not
      exact beq_eq_false_iff_ne.mpr fun h => hi h.symm

theorem removeTask_eq {q : TaskQueue V} {t : Task V}
    (hc : q.Consistent) (ht : t ∈ q.tasks) :
    q.removeTask t = Except.ok (q.erased t) := by
  have hp : (fun (x : Task V) => x.id == t.id) t = true := beq_self_eq_true t.id
  have hany : q.tasks.any (fun x => x.id == t.id) = true :=
    List.any_eq_true.mpr ⟨t, ht, hp⟩
  have h1 : pyRemoveFirst? (fun x => x.id == t.id) q.tasks
      = some (q.tasks.eraseP (fun x => x.id == t.id)) := by
    rw [pyRemoveFirst?_eq, if_pos hany]
  have htag : t ∈ tagList q t.tag := by
    refine ((hc.tag_perm t.tag).mem_iff).mpr ?_
    exact List.mem_filter.mpr ⟨ht, beq_self_eq_true t.tag⟩
  have h2 : dictGet? t.tag q.tasks_by_tag = some (tagList q t.tag) := by
    unfold tagList at htag ⊢
    cases hd : dictGet? t.tag q.tasks_by_tag with
    | none =>
      rw [hd] at htag
      simp at htag
    | some l => simp [hd]
  have hany2 : (tagList q t.tag).any (fun x => x.id == t.id) = true :=
    List.any_eq_true.mpr ⟨t, htag, hp⟩
  have h3 : pyRemoveFirst? (fun x => x.id == t.id) (tagList q t.tag)
      = some ((tagList q t.tag).eraseP (fun x => x.id == t.id)) := by
    rw [pyRemoveFirst?_eq, if_pos hany2]
  have h4 : dictGet? t.id q.tasks_by_id = some t := by
    rw [hc.id_find]
    exact find?_of_id_nodup hc.ids_nodup ht
  simp only [TaskQueue.removeTask, h1, h2, h3, h4, TaskQueue.erased, pure_bind]
  rfl

theorem firstTask_ok {q : TaskQueue V} {t : Task V} {rest : List (Task V)}
    (hc : q.Consistent) (h : q.tasks = t :: rest) :
    q.firstTask = Except.ok (t, q.erased t) := by
  have ht : t ∈ q.tasks := by
    rw [h]
    exact List.mem_cons_self t rest
  simp [TaskQueue.firstTask, h, removeTask_eq hc (h ▸ List.mem_cons_self t rest)]

theorem firstTaskWithTag_ok {q : TaskQueue V} {t : Task V} {rest : List (Task V)}
    {tag : String} (hc : q.Consistent) (h : tagList q tag = t :: rest) :
    q.firstTaskWithTag tag = Except.ok (t, q.erased t) := by
  have ht : t ∈ tagList q tag := by
    rw [h]
    exact List.mem_cons_self t rest
  have hmem := mem_of_mem_tagList hc ht
  have : (dictGet? tag q.tasks_by_tag).getD [] = t :: rest := h
  simp [TaskQueue.firstTaskWithTag, this, removeTask_eq hc hmem.1]

theorem taskWithId_ok {q : TaskQueue V} {t : Task V}
    (hc : q.Consistent) (ht : t ∈ q.tasks) :
    q.taskWithId t.id = Except.ok (t, q.erased t) := by
  have h4 : dictGet? t.id q.tasks_by_id = some t := by
    rw [hc.id_find]
    exact find?_of_id_nodup hc.ids_nodup ht
  simp [TaskQueue.taskWithId, h4, removeTask_eq hc ht]

/-! ### Inversion and bookkeeping helpers -/

theorem list_set_same {α : Type u} : ∀ (l : List α) (p : Nat) (v : α),
    l[p]? = some v → l.set p v = l
  | [], p, v, h => by simp at h
  | a :: l, 0, v, h => by
    simp at h
    simp [List.set, h]
  | a :: l, p + 1, v, h => by
    simp at h
    simp [List.set, list_set_same l p v h]

theorem except_error_bind {α β ε : Type u} (e : ε) (f : α → Except ε β) :
    (Except.error e : Except ε α) >>= f = Except.error e := rfl

theorem except_ok_bind {α β ε : Type u} (a : α) (f : α → Except ε β) :
    (Except.ok a : Except ε α) >>= f = f a := rfl

theorem removeTask_terminate {q : TaskQueue V} {t : Task V} {q' : TaskQueue V}
    (h : q.removeTask t = Except.ok q') : q'.terminate = q.terminate := by
  unfold TaskQueue.removeTask at h
  repeat'
    first
      | split at h
      | simp only [except_error_bind, except_ok_bind, pure_bind] at h
  all_goals first
    | (cases h; rfl)
    | exact Except.noConfusion h

theorem firstTask_ok_inv {q : TaskQueue V} {t : Task V} {q' : TaskQueue V}
    (hc : q.Consistent) (h : q.firstTask = Except.ok (t, q')) :
    q.tasks.head? = some t ∧ t ∈ q.tasks ∧ q' = q.erased t := by
  unfold TaskQueue.firstTask at h
  split at h
  · split at h <;> exact Except.noConfusion h
  · rename_i task rest heq
    have hmem : task ∈ q.tasks := heq ▸ List.mem_cons_self task rest
    rw [removeTask_eq hc hmem] at h
    simp only [except_ok_bind, pure_bind] at h
    cases h
    exact ⟨by rw [heq]; rfl, hmem, rfl⟩

theorem taskWithId_ok_inv {q : TaskQueue V} {i : String} {t : Task V}
    {q' : TaskQueue V} (hc : q.Consistent)
    (h : q.taskWithId i = Except.ok (t, q')) :
    t ∈ q.tasks ∧ t.id = i ∧ q' = q.erased t := by
  unfold TaskQueue.taskWithId at h
  split at h
  · split at h <;> exact Except.noConfusion h
  · rename_i task heq
    have hfind := hc.id_find i
    rw [heq] at hfind
    have hmem : task ∈ q.tasks := List.mem_of_find?_eq_some hfind.symm
    have hid : task.id = i := by
      have hidb := List.find?_some hfind.symm
      simpa using hidb
    rw [removeTask_eq hc hmem] at h
    simp only [except_ok_bind, pure_bind] at h
    cases h
    exact ⟨hmem, hid, rfl⟩

theorem firstTaskWithTag_ok_inv {q : TaskQueue V} {tag : String} {t : Task V}
    {q' : TaskQueue V} (hc : q.Consistent)
    (h : q.firstTaskWithTag tag = Except.ok (t, q')) :
    (tagList q tag).head? = some t ∧ t ∈ q.tasks ∧ t.tag = tag
      ∧ q' = q.erased t := by
  unfold TaskQueue.firstTaskWithTag at h
  split at h
  · split at h <;> exact Except.noConfusion h
  · rename_i task rest heq
    have htl : task ∈ tagList q tag := by
      unfold tagList
      rw [heq]
      exact List.mem_cons_self task rest
    have hmem := mem_of_mem_tagList hc htl
    have hhead : (tagList q tag).head? = some task := by
      unfold tagList
      rw [heq]
      rfl
    rw [removeTask_eq hc hmem.1] at h
    simp only [except_ok_bind, pure_bind] at h
    cases h
    exact ⟨hhead, hmem.1, hmem.2, rfl⟩

theorem firstTask_terminate {q : TaskQueue V} {t : Task V} {q' : TaskQueue V}
    (h : q.firstTask = Except.ok (t, q')) : q'.terminate = q.terminate := by
  unfold TaskQueue.firstTask at h
  split at h
  · split at h <;> exact Except.noConfusion h
  · rename_i task rest heq
    cases hr : q.removeTask task with
    | error e =>
      rw [hr] at h
      exact Except.noConfusion h
    | ok q₂ =>
      rw [hr] at h
      simp only [except_ok_bind, pure_bind] at h
      cases h
      exact removeTask_terminate hr

theorem firstTaskWithTag_terminate {q : TaskQueue V} {tag : String}
    {t : Task V} {q' : TaskQueue V}
    (h : q.firstTaskWithTag tag = Except.ok (t, q')) :
    q'.terminate = q.terminate := by
  unfold TaskQueue.firstTaskWithTag at h
  split at h
  · split at h <;> exact Except.noConfusion h
  · rename_i task rest heq
    cases hr : q.removeTask task with
    | error e =>
      rw [hr] at h
      exact Except.noConfusion h
    | ok q₂ =>
      rw [hr] at h
      simp only [except_ok_bind, pure_bind] at h
      cases h
      exact removeTask_terminate hr

theorem taskWithId_terminate {q : TaskQueue V} {i : String} {t : Task V}
    {q' : TaskQueue V} (h : q.taskWithId i = Except.ok (t, q')) :
    q'.terminate = q.terminate := by
  unfold TaskQueue.taskWithId at h
  split at h
  · split at h <;> exact Except.noConfusion h
  · rename_i task heq
    cases hr : q.removeTask task with
    | error e =>
      rw [hr] at h
      exact Except.noConfusion h
    | ok q₂ =>
      rw [hr] at h
      simp only [except_ok_bind, pure_bind] at h
      cases h
      exact removeTask_terminate hr

/-! ### Termination flag is one-way -/

instance {ε α : Type u} [DecidableEq ε] [DecidableEq α] :
    DecidableEq (Except ε α) := fun a b =>
  match a, b with
  | Except.ok x, Except.ok y =>
    if h : x = y then isTrue (by rw [h]) else isFalse (by simp [h])
  | Except.error x, Except.error y =>
    if h : x = y then isTrue (by rw [h]) else isFalse (by simp [h])
  | Except.ok _, Except.error _ => isFalse (by simp)
  | Except.error _, Except.ok _ => isFalse (by simp)

theorem qStep_terminate_true (op : QOp V) (q : TaskQueue V)
    (h : q.terminate = true) : (qStep op q).terminate = true := by
  cases op with
  | addTask t f => exact (terminate_addTask q t f).trans h
  | firstTask =>
    simp only [qStep]
    cases hr : q.firstTask with
    | error e => exact h
    | ok x =>
      obtain ⟨t, q'⟩ := x
      exact (firstTask_terminate hr).trans h
  | firstTaskWithTag tag =>
    simp only [qStep]
    cases hr : q.firstTaskWithTag tag with
    | error e => exact h
    | ok x =>
      obtain ⟨t, q'⟩ := x
      exact (firstTaskWithTag_terminate hr).trans h
  | taskWithId i =>
    simp only [qStep]
    cases hr : q.taskWithId i with
    | error e => exact h
    | ok x =>
      obtain ⟨t, q'⟩ := x
      exact (taskWithId_terminate hr).trans h
  | terminateWaitingThreads => rfl

theorem qRun_terminate_true (ops : List (QOp V)) (q : TaskQueue V)
    (h : q.terminate = true) : (qRun ops q).terminate = true := by
  induction ops generalizing q with
  | nil => exact h
  | cons op rest ih => exact ih (qStep op q) (qStep_terminate_true op q h)

/-! ### Claim C3 -/

/-- Claim C3, counterexample to the claim as stated: on a terminated queue
that still holds a task, `firstTask` does not fail with the `Terminated`
signal — it hands out the task (the `while not self.tasks` loop never runs,
so `_checkForTermination` is never reached). -/
theorem claim3_counterexample :
    ((((TaskQueue.init Nat).addTask
        { tag := "t", parameters := 0, id := "t_0", requesting_processor := none,
          handling_processor := none, request_time := none, start_time := none,
          end_time := none, completed := none }
        false).terminateWaitingThreads).terminate = true)
    ∧ ((((TaskQueue.init Nat).addTask
        { tag := "t", parameters := 0, id := "t_0", requesting_processor := none,
          handling_processor := none, request_time := none, start_time := none,
          end_time := none, completed := none }
        false).terminateWaitingThreads).tasks ≠ [])
    ∧ ((((TaskQueue.init Nat).addTask
        { tag := "t", parameters := 0, id := "t_0", requesting_processor := none,
          handling_processor := none, request_time := none, start_time := none,
          end_time := none, completed := none }
        false).terminateWaitingThreads).firstTask
      ≠ Except.error PyErr.termination) := by
  refine ⟨rfl, by decide, by decide⟩

/-- Claim C3 (amended): after `terminate()` every blocking operation that
finds no matching task (`firstTask` on an empty primary list,
`firstTaskWithTag` with an empty bucket, `taskWithId` with an absent id)
fails immediately with the `Terminated` signal rather than blocking, and no
sequence of queue operations ever resets the terminated flag; a terminated
queue that still holds a matching task, however, hands it out normally. -/
theorem claim3 (V : Type) (q : TaskQueue V) (tag i : String)
    (hterm : q.terminate = true) :
    (q.tasks = [] → q.firstTask = Except.error PyErr.termination)
    ∧ (tagList q tag = [] → q.firstTaskWithTag tag = Except.error PyErr.termination)
    ∧ (dictGet? i q.tasks_by_id = none →
        q.taskWithId i = Except.error PyErr.termination)
    ∧ ∀ ops : List (QOp V), (qRun ops q).terminate = true := by
  refine ⟨?_, ?_, ?_, fun ops => qRun_terminate_true ops q hterm⟩
  · intro h
    unfold TaskQueue.firstTask
    rw [h, hterm]
    rfl
  · intro h
    unfold TaskQueue.firstTaskWithTag
    unfold tagList at h
    rw [h, hterm]
    rfl
  · intro h
    unfold TaskQueue.taskWithId
    rw [h, hterm]
    rfl

/-- Witness for C3 at a concrete terminated queue. -/
theorem claim3_witness :
    (((TaskQueue.init Nat).terminateWaitingThreads.tasks = [] →
      (TaskQueue.init Nat).terminateWaitingThreads.firstTask
        = Except.error PyErr.termination)
    ∧ (tagList (TaskQueue.init Nat).terminateWaitingThreads "a" = [] →
        (TaskQueue.init Nat).terminateWaitingThreads.firstTaskWithTag "a"
          = Except.error PyErr.termination)
    ∧ (dictGet? "x" (TaskQueue.init Nat).terminateWaitingThreads.tasks_by_id
          = none →
        (TaskQueue.init Nat).terminateWaitingThreads.taskWithId "x"
          = Except.error PyErr.termination)
    ∧ ∀ ops : List (QOp Nat),
        (qRun ops (TaskQueue.init Nat).terminateWaitingThreads).terminate
          = true) :=
  claim3 Nat (TaskQueue.init Nat).terminateWaitingThreads "a" "x" rfl

/-! ### Claim C9 -/

/-- Claim C9: submitting a task with requesting process id `0` — the id the
first `registerProcess` call hands out — behaves exactly as if no submitter
had been given, because `addTaskRequest` tests `if process_id:` (Python
truthiness) rather than `is not None`; the new task's `requesting_processor`
stays unset. -/
theorem claim9 (V : Type) (m : TaskManager V) (tag : String) (p : V)
    (pd : Option Int) (now : Int) :
    ((TaskManager.init V).registerProcess pd now).1 = 0
    ∧ m.addTaskRequest tag p (some 0) now = m.addTaskRequest tag p none now
    ∧ ∀ t ∈ (m.addTaskRequest tag p (some 0) now).2.waiting_tasks.tasks,
        t ∈ m.waiting_tasks.tasks ∨ t.requesting_processor = none := by
  refine ⟨?_, rfl, ?_⟩
  · cases pd <;> rfl
  · intro t ht
    have : (m.addTaskRequest tag p (some 0) now).2.waiting_tasks.tasks
        = m.waiting_tasks.tasks ++
          [{ tag := tag, parameters := p,
             id := tag ++ "_" ++ Nat.repr m.id_counter,
             requesting_processor := none, handling_processor := none,
             request_time := some now, start_time := none, end_time := none,
             completed := none }] := rfl
    rw [this] at ht
    rcases List.mem_append.mp ht with h | h
    · exact Or.inl h
    · right
      rw [List.mem_singleton.mp h]

/-! ### Claim C2 -/

/-- Claim C2, failing run: with task `b_0` running and task `a_1` already
waiting, `returnTask "b_0"` followed by `getAnyTask` delivers the previously
waiting `a_1`, not the returned `b_0` — `TaskQueue.addTask` appends to the
primary list even when `in_front=True` (only the by-tag index is
front-inserted), and `firstTask` reads the primary list. -/
theorem claim2_code_bug :
    (do
      let m₁ := ((TaskManager.init Nat).addTaskRequest "b" 2 none 0).2
      let (_, m₂) ← m₁.getAnyTask none 0
      let m₃ := (m₂.addTaskRequest "a" 1 none 0).2
      let m₄ ← m₃.returnTask "b_0"
      let (out, _) ← m₄.getAnyTask none 0
      pure out.1 : Except (PyErr Nat) String) = Except.ok "a_1"
    ∧ "a_1" ≠ "b_0"
    ∧ (((TaskManager.init Nat).addTaskRequest "b" 2 none 0).1 = "b_0") := by
  refine ⟨by decide, by decide, rfl⟩

/-! ### Structural shape of each `TaskManager` operation -/

theorem removeTask_m_shape {m : TaskManager V} {t : Task V} {m' : TaskManager V}
    (h : m.removeTask t = Except.ok m') :
    ∃ tb, m' = { m with tasks_by_process := tb } := by
  unfold TaskManager.removeTask at h
  repeat'
    first
      | split at h
      | simp only [] at h
      | simp only [except_error_bind, except_ok_bind, pure_bind] at h
  all_goals first
    | (cases h; exact ⟨_, rfl⟩)
    | exact Except.noConfusion h

theorem checkoutTask_shape {m : TaskManager V} {task : Task V}
    {pid : Option Nat} {now : Int} {m' : TaskManager V}
    (h : TaskManager.checkoutTask m task pid now = Except.ok m') :
    ∃ tb, m' = { m with
      running_tasks := m.running_tasks.addTask
        { task with handling_processor := pid, start_time := some now } false
      tasks_by_process := tb } := by
  unfold TaskManager.checkoutTask at h
  repeat'
    first
      | split at h
      | simp only [] at h
      | simp only [except_error_bind, except_ok_bind, pure_bind] at h
  all_goals first
    | (cases h; exact ⟨_, rfl⟩)
    | exact Except.noConfusion h

theorem getAnyTask_shape {m : TaskManager V} {pid : Option Nat} {now : Int}
    {out : String × String × V} {m' : TaskManager V}
    (h : m.getAnyTask pid now = Except.ok (out, m')) :
    ∃ t wq tb, m.waiting_tasks.firstTask = Except.ok (t, wq)
      ∧ out = (t.id, t.tag, t.parameters)
      ∧ m' = { m with
          waiting_tasks := wq
          running_tasks := m.running_tasks.addTask
            { t with handling_processor := pid, start_time := some now } false
          tasks_by_process := tb } := by
  unfold TaskManager.getAnyTask at h
  cases hf : m.waiting_tasks.firstTask with
  | error e =>
    rw [hf] at h
    exact Except.noConfusion h
  | ok x =>
    obtain ⟨t, wq⟩ := x
    rw [hf] at h
    simp only [except_ok_bind] at h
    cases hco : TaskManager.checkoutTask { m with waiting_tasks := wq } t pid now with
    | error e =>
      rw [hco] at h
      exact Except.noConfusion h
    | ok m₂ =>
      rw [hco] at h
      simp only [except_ok_bind, pure_bind] at h
      cases h
      obtain ⟨tb, htb⟩ := checkoutTask_shape hco
      exact ⟨t, wq, tb, rfl, rfl, by rw [htb]⟩

theorem getTaskWithTag_shape {m : TaskManager V} {tag : String}
    {pid : Option Nat} {now : Int} {out : String × V} {m' : TaskManager V}
    (h : m.getTaskWithTag tag pid now = Except.ok (out, m')) :
    ∃ t wq tb, m.waiting_tasks.firstTaskWithTag tag = Except.ok (t, wq)
      ∧ out = (t.id, t.parameters)
      ∧ m' = { m with
          waiting_tasks := wq
          running_tasks := m.running_tasks.addTask
            { t with handling_processor := pid, start_time := some now } false
          tasks_by_process := tb } := by
  unfold TaskManager.getTaskWithTag at h
  cases hf : m.waiting_tasks.firstTaskWithTag tag with
  | error e =>
    rw [hf] at h
    exact Except.noConfusion h
  | ok x =>
    obtain ⟨t, wq⟩ := x
    rw [hf] at h
    simp only [except_ok_bind] at h
    cases hco : TaskManager.checkoutTask { m with waiting_tasks := wq } t pid now with
    | error e =>
      rw [hco] at h
      exact Except.noConfusion h
    | ok m₂ =>
      rw [hco] at h
      simp only [except_ok_bind, pure_bind] at h
      cases h
      obtain ⟨tb, htb⟩ := checkoutTask_shape hco
      exact ⟨t, wq, tb, rfl, rfl, by rw [htb]⟩

theorem storeResult_shape {m : TaskManager V} {i : String} {r : V} {now : Int}
    {m' : TaskManager V} (h : m.storeResult i r now = Except.ok m') :
    ∃ t rq tb, m.running_tasks.taskWithId i = Except.ok (t, rq)
      ∧ m' = { m with
          results := dictSet i (StoredValue.plain r) m.results
          running_tasks := rq
          finished_tasks := m.finished_tasks.addTask
            { t with end_time := some now, completed := some true } false
          tasks_by_process := tb } := by
  unfold TaskManager.storeResult at h
  simp only [] at h
  cases hw : m.running_tasks.taskWithId i with
  | error e =>
    rw [hw] at h
    exact Except.noConfusion h
  | ok x =>
    obtain ⟨t, rq⟩ := x
    rw [hw] at h
    simp only [except_ok_bind] at h
    obtain ⟨tb, htb⟩ := removeTask_m_shape h
    exact ⟨t, rq, tb, rfl, by rw [htb]⟩

theorem storeException_shape {m : TaskManager V} {i : String} {e tb₀ : V}
    {now : Int} {m' : TaskManager V}
    (h : m.storeException i e tb₀ now = Except.ok m') :
    ∃ t rq tb, m.running_tasks.taskWithId i = Except.ok (t, rq)
      ∧ m' = { m with
          results := dictSet i (StoredValue.excPair e tb₀) m.results
          running_tasks := rq
          finished_tasks := m.finished_tasks.addTask
            { t with end_time := some now, completed := some false } false
          tasks_by_process := tb } := by
  unfold TaskManager.storeException at h
  simp only [] at h
  cases hw : m.running_tasks.taskWithId i with
  | error e' =>
    rw [hw] at h
    exact Except.noConfusion h
  | ok x =>
    obtain ⟨t, rq⟩ := x
    rw [hw] at h
    simp only [except_ok_bind] at h
    obtain ⟨tb, htb⟩ := removeTask_m_shape h
    exact ⟨t, rq, tb, rfl, by rw [htb]⟩

theorem returnTask_shape {m : TaskManager V} {i : String} {m' : TaskManager V}
    (h : m.returnTask i = Except.ok m') :
    ∃ t rq tb, m.running_tasks.taskWithId i = Except.ok (t, rq)
      ∧ m' = { m with
          running_tasks := rq
          waiting_tasks := m.waiting_tasks.addTask
            { t with start_time := none, handling_processor := none } true
          tasks_by_process := tb } := by
  unfold TaskManager.returnTask at h
  cases hw : m.running_tasks.taskWithId i with
  | error e =>
    rw [hw] at h
    exact Except.noConfusion h
  | ok x =>
    obtain ⟨t, rq⟩ := x
    rw [hw] at h
    simp only [except_ok_bind] at h
    cases hrm : TaskManager.removeTask { m with running_tasks := rq } t with
    | error e =>
      rw [hrm] at h
      exact Except.noConfusion h
    | ok m₂ =>
      rw [hrm] at h
      simp only [except_ok_bind, pure_bind] at h
      cases h
      obtain ⟨tb, htb⟩ := removeTask_m_shape hrm
      exact ⟨t, rq, tb, rfl, by rw [htb]⟩

theorem getAnyResult_shape {m : TaskManager V}
    {out : String × String × StoredValue V} {m' : TaskManager V}
    (h : m.getAnyResult = Except.ok (out, m')) :
    ∃ t fq r, m.finished_tasks.firstTask = Except.ok (t, fq)
      ∧ dictGet? t.id m.results = some r
      ∧ t.completed = some true
      ∧ out = (t.id, t.tag, r)
      ∧ m' = { m with
          finished_tasks := fq
          results := dictErase t.id m.results } := by
  unfold TaskManager.getAnyResult at h
  cases hf : m.finished_tasks.firstTask with
  | error e =>
    rw [hf] at h
    exact Except.noConfusion h
  | ok x =>
    obtain ⟨t, fq⟩ := x
    rw [hf] at h
    simp only [except_ok_bind] at h
    cases hr : dictGet? t.id m.results with
    | none =>
      rw [hr] at h
      simp only [except_error_bind] at h
      exact Except.noConfusion h
    | some r =>
      rw [hr] at h
      simp only [except_ok_bind, pure_bind] at h
      cases hcpl : t.completed with
      | none =>
        rw [hcpl] at h
        exact Except.noConfusion h
      | some b =>
        rw [hcpl] at h
        cases b with
        | false =>
          cases r with
          | plain v =>
            simp only [] at h
            exact Except.noConfusion h
          | excPair e tb =>
            simp only [] at h
            exact Except.noConfusion h
        | true =>
          simp only [] at h
          cases h
          exact ⟨t, fq, r, rfl, hr, hcpl, rfl, rfl⟩

theorem getResultWithTag_shape {m : TaskManager V} {tag : String}
    {out : String × StoredValue V} {m' : TaskManager V}
    (h : m.getResultWithTag tag = Except.ok (out, m')) :
    ∃ t fq r, m.finished_tasks.firstTaskWithTag tag = Except.ok (t, fq)
      ∧ dictGet? t.id m.results = some r
      ∧ t.completed = some true
      ∧ out = (t.id, r)
      ∧ m' = { m with
          finished_tasks := fq
          results := dictErase t.id m.results } := by
  unfold TaskManager.getResultWithTag at h
  cases hf : m.finished_tasks.firstTaskWithTag tag with
  | error e =>
    rw [hf] at h
    exact Except.noConfusion h
  | ok x =>
    obtain ⟨t, fq⟩ := x
    rw [hf] at h
    simp only [except_ok_bind] at h
    cases hr : dictGet? t.id m.results with
    | none =>
      rw [hr] at h
      simp only [except_error_bind] at h
      exact Except.noConfusion h
    | some r =>
      rw [hr] at h
      simp only [except_ok_bind, pure_bind] at h
      cases hcpl : t.completed with
      | none =>
        rw [hcpl] at h
        exact Except.noConfusion h
      | some b =>
        rw [hcpl] at h
        cases b with
        | false =>
          cases r with
          | plain v =>
            simp only [] at h
            exact Except.noConfusion h
          | excPair e tb =>
            simp only [] at h
            exact Except.noConfusion h
        | true =>
          simp only [] at h
          cases h
          exact ⟨t, fq, r, rfl, hr, hcpl, rfl, rfl⟩

/-! ### The id counter only ever grows -/

theorem except_bind_ok_inv {α β ε : Type u} {x : Except ε α}
    {g : α → Except ε β} {b : β} (h : x >>= g = Except.ok b) :
    ∃ a, x = Except.ok a ∧ g a = Except.ok b := by
  cases x with
  | error e =>
    rw [except_error_bind] at h
    exact Except.noConfusion h
  | ok a =>
    rw [except_ok_bind] at h
    exact ⟨a, rfl, h⟩

theorem foldlM_counter_eq {α : Type}
    {f : TaskManager V → α → Except (PyErr V) (TaskManager V)}
    (hf : ∀ m a m', f m a = Except.ok m' → m'.id_counter = m.id_counter) :
    ∀ (l : List α) (m m' : TaskManager V),
      List.foldlM f m l = Except.ok m' → m'.id_counter = m.id_counter := by
  intro l
  induction l with
  | nil =>
    intro m m' h
    simp only [List.foldlM_nil] at h
    cases h
    rfl
  | cons a rest ih =>
    intro m m' h
    rw [List.foldlM_cons] at h
    obtain ⟨m₁, h1, h2⟩ := except_bind_ok_inv h
    exact (ih m₁ m' h2).trans (hf m a m₁ h1)

theorem registerProcess_counter (m : TaskManager V) (pd : Option Int)
    (now : Int) : (m.registerProcess pd now).2.id_counter = m.id_counter := by
  cases pd <;> rfl

theorem addTaskRequest_counter (m : TaskManager V) (tag : String) (p : V)
    (pid : Option Nat) (now : Int) :
    (m.addTaskRequest tag p pid now).2.id_counter = m.id_counter + 1 := rfl

theorem getAnyTask_counter {m : TaskManager V} {pid : Option Nat} {now : Int}
    {out : String × String × V} {m' : TaskManager V}
    (h : m.getAnyTask pid now = Except.ok (out, m')) :
    m'.id_counter = m.id_counter := by
  obtain ⟨t, wq, tb, _, _, hm⟩ := getAnyTask_shape h
  rw [hm]

theorem getTaskWithTag_counter {m : TaskManager V} {tag : String}
    {pid : Option Nat} {now : Int} {out : String × V} {m' : TaskManager V}
    (h : m.getTaskWithTag tag pid now = Except.ok (out, m')) :
    m'.id_counter = m.id_counter := by
  obtain ⟨t, wq, tb, _, _, hm⟩ := getTaskWithTag_shape h
  rw [hm]

theorem storeResult_counter {m : TaskManager V} {i : String} {r : V}
    {now : Int} {m' : TaskManager V} (h : m.storeResult i r now = Except.ok m') :
    m'.id_counter = m.id_counter := by
  obtain ⟨t, rq, tb, _, hm⟩ := storeResult_shape h
  rw [hm]

theorem storeException_counter {m : TaskManager V} {i : String} {e tb₀ : V}
    {now : Int} {m' : TaskManager V}
    (h : m.storeException i e tb₀ now = Except.ok m') :
    m'.id_counter = m.id_counter := by
  obtain ⟨t, rq, tb, _, hm⟩ := storeException_shape h
  rw [hm]

theorem returnTask_counter {m : TaskManager V} {i : String}
    {m' : TaskManager V} (h : m.returnTask i = Except.ok m') :
    m'.id_counter = m.id_counter := by
  obtain ⟨t, rq, tb, _, hm⟩ := returnTask_shape h
  rw [hm]

theorem getAnyResult_counter {m : TaskManager V}
    {out : String × String × StoredValue V} {m' : TaskManager V}
    (h : m.getAnyResult = Except.ok (out, m')) :
    m'.id_counter = m.id_counter := by
  obtain ⟨t, fq, r, _, _, _, _, hm⟩ := getAnyResult_shape h
  rw [hm]

theorem getResultWithTag_counter {m : TaskManager V} {tag : String}
    {out : String × StoredValue V} {m' : TaskManager V}
    (h : m.getResultWithTag tag = Except.ok (out, m')) :
    m'.id_counter = m.id_counter := by
  obtain ⟨t, fq, r, _, _, _, _, hm⟩ := getResultWithTag_shape h
  rw [hm]

theorem unregisterProcess_counter {m : TaskManager V} {pid : Nat}
    {m' : TaskManager V} (h : m.unregisterProcess pid = Except.ok m') :
    m'.id_counter = m.id_counter := by
  unfold TaskManager.unregisterProcess at h
  cases ha : pyRemoveFirst? (fun p => p == pid) m.active_processes with
  | none =>
    rw [ha] at h
    simp only [except_error_bind] at h
    exact Except.noConfusion h
  | some active' =>
    rw [ha] at h
    simp only [except_ok_bind, pure_bind] at h
    cases hidx : m.tasks_by_process[pid]? with
    | none =>
      rw [hidx] at h
      simp only [except_error_bind] at h
      exact Except.noConfusion h
    | some tasks =>
      rw [hidx] at h
      simp only [except_ok_bind, pure_bind] at h
      obtain ⟨m₂, hf, hg⟩ := except_bind_ok_inv h
      have hcnt := foldlM_counter_eq
        (fun m a m' hh => returnTask_counter hh) tasks _ _ hf
      cases hw : m₂.watchdog with
      | none =>
        rw [hw] at hg
        cases hg
        exact hcnt
      | some w =>
        rw [hw] at hg
        cases hg
        exact hcnt

theorem watchdogCycle_counter {m : TaskManager V} {now : Int}
    {m' : TaskManager V} (h : m.watchdogCycle now = Except.ok m') :
    m'.id_counter = m.id_counter := by
  unfold TaskManager.watchdogCycle at h
  cases hw : m.watchdog with
  | none =>
    rw [hw] at h
    cases h
    rfl
  | some w =>
    rw [hw] at h
    obtain ⟨dead, h1, h2⟩ := except_bind_ok_inv h
    exact foldlM_counter_eq (fun m a m' hh => unregisterProcess_counter hh)
      dead m m' h2

theorem step_counter_mono {op : Op V} {m m' : TaskManager V}
    (h : step op m = Except.ok m') : m.id_counter ≤ m'.id_counter := by
  cases op with
  | registerProcess pd now =>
    cases h
    rw [registerProcess_counter]
  | unregisterProcess pid =>
    rw [unregisterProcess_counter h]
  | ping pid now =>
    cases h
    unfold TaskManager.ping
    cases m.watchdog <;> exact Nat.le_refl _
  | addTaskRequest tag p pid now =>
    cases h
    rw [addTaskRequest_counter]
    exact Nat.le_succ _
  | getAnyTask pid now =>
    obtain ⟨x, h1, h2⟩ := except_bind_ok_inv h
    obtain ⟨o, mm⟩ := x
    simp only [pure_bind] at h2
    cases h2
    rw [getAnyTask_counter h1]
  | getTaskWithTag tag pid now =>
    obtain ⟨x, h1, h2⟩ := except_bind_ok_inv h
    obtain ⟨o, mm⟩ := x
    simp only [pure_bind] at h2
    cases h2
    rw [getTaskWithTag_counter h1]
  | storeResult i r now =>
    rw [storeResult_counter h]
  | storeException i e tb now =>
    rw [storeException_counter h]
  | returnTask i =>
    rw [returnTask_counter h]
  | getAnyResult =>
    obtain ⟨x, h1, h2⟩ := except_bind_ok_inv h
    obtain ⟨o, mm⟩ := x
    simp only [pure_bind] at h2
    cases h2
    rw [getAnyResult_counter h1]
  | getResultWithTag tag =>
    obtain ⟨x, h1, h2⟩ := except_bind_ok_inv h
    obtain ⟨o, mm⟩ := x
    simp only [pure_bind] at h2
    cases h2
    rw [getResultWithTag_counter h1]
  | terminate =>
    cases h
    exact Nat.le_refl _
  | watchdogCycle now =>
    rw [watchdogCycle_counter h]

theorem runOps_counter_mono {ops : List (Op V)} {m m' : TaskManager V}
    (h : runOps ops m = Except.ok m') : m.id_counter ≤ m'.id_counter := by
  induction ops generalizing m with
  | nil =>
    unfold runOps at h
    simp only [List.foldlM_nil] at h
    cases h
    exact Nat.le_refl _
  | cons op rest ih =>
    unfold runOps at h
    rw [List.foldlM_cons] at h
    obtain ⟨m₁, h1, h2⟩ := except_bind_ok_inv h
    exact (step_counter_mono h1).trans (ih h2)

/-! ### Claim C8 -/

/-- Claim C8: `addTaskRequest` returns the id `tag + "_" + str(id_counter)`
and bumps the coordinator-local counter; no later operation ever lowers the
counter, so the id returned by a second `addTaskRequest` — after any
successful sequence of intervening operations and for any tags — differs
from the first (decimal digits contain no underscore, so the id map is
injective in the counter). -/
theorem claim8 (V : Type) (m : TaskManager V) (tag : String) (p : V)
    (pid : Option Nat) (now : Int) (tag' : String) (p' : V)
    (pid' : Option Nat) (now' : Int) (ops : List (Op V)) (m' : TaskManager V)
    (h : runOps ops (m.addTaskRequest tag p pid now).2 = Except.ok m') :
    (m.addTaskRequest tag p pid now).1 = tag ++ "_" ++ Nat.repr m.id_counter
    ∧ (m.addTaskRequest tag p pid now).2.id_counter = m.id_counter + 1
    ∧ (m.addTaskRequest tag p pid now).1
        ≠ (m'.addTaskRequest tag' p' pid' now').1 := by
  refine ⟨rfl, rfl, fun hc => ?_⟩
  have hcnt : m.id_counter + 1 ≤ m'.id_counter := by
    have := runOps_counter_mono h
    rw [addTaskRequest_counter] at this
    exact this
  have hids : tag ++ "_" ++ Nat.repr m.id_counter
      = tag' ++ "_" ++ Nat.repr m'.id_counter := hc
  have := (taskId_inj hids).2
  omega

/-- Witness for C8: two back-to-back submissions with the same tag from the
initial coordinator state get the ids `a_0` and `a_1`. -/
theorem claim8_witness :
    (((TaskManager.init Nat).addTaskRequest "a" 0 none 0).1
        = "a" ++ "_" ++ Nat.repr (TaskManager.init Nat).id_counter)
    ∧ (((TaskManager.init Nat).addTaskRequest "a" 0 none 0).2.id_counter
        = (TaskManager.init Nat).id_counter + 1)
    ∧ (((TaskManager.init Nat).addTaskRequest "a" 0 none 0).1
        ≠ ((((TaskManager.init Nat).addTaskRequest "a" 0 none 0).2).addTaskRequest
            "a" 0 none 0).1) :=
  claim8 Nat (TaskManager.init Nat) "a" 0 none 0 "a" 0 none 0 []
    ((TaskManager.init Nat).addTaskRequest "a" 0 none 0).2 rfl

/-! ### Claims C10 and C4 -/

theorem init_consistent (V : Type) : (TaskQueue.init V).Consistent := by
  constructor
  · simp [TaskQueue.init]
  · simp [TaskQueue.init]
  · intro tag
    simp [TaskQueue.init, tagList, dictGet?]
  · intro i
    simp [TaskQueue.init, dictGet?, List.find?]

theorem removeTask_m_noop {m : TaskManager V} {task : Task V}
    (hp : ∀ p, task.handling_processor = some p →
        p < m.tasks_by_process.length)
    (habs : ∀ p held, task.handling_processor = some p →
        m.tasks_by_process[p]? = some held → task.id ∉ held.map Task.id) :
    TaskManager.removeTask m task = Except.ok m := by
  unfold TaskManager.removeTask
  cases hh : task.handling_processor with
  | none => rfl
  | some p =>
    have hlen := hp p hh
    have hheld : m.tasks_by_process[p]? = some m.tasks_by_process[p] :=
      List.getElem?_eq_getElem hlen
    simp only []
    rw [hheld]
    simp only []
    have hnone : pyRemoveFirst? (fun t' => t'.id == task.id)
        m.tasks_by_process[p] = none := by
      rw [pyRemoveFirst?_eq]
      have hany : (m.tasks_by_process[p]).any (fun t' => t'.id == task.id)
          = false := by
        rw [List.any_eq_false]
        intro x hx hbeq
        exact habs p _ hh hheld
          ((beq_iff_eq.mp hbeq) ▸ List.mem_map_of_mem Task.id hx)
      rw [hany]
      rfl
    rw [hnone, list_set_same _ _ _ hheld]
    rfl

theorem removeTask_m_total {m : TaskManager V} {task : Task V}
    (hp : ∀ p, task.handling_processor = some p →
        p < m.tasks_by_process.length) :
    ∃ m', m.removeTask task = Except.ok m' := by
  unfold TaskManager.removeTask
  cases hh : task.handling_processor with
  | none => exact ⟨m, rfl⟩
  | some p =>
    have hlen := hp p hh
    have hheld : m.tasks_by_process[p]? = some m.tasks_by_process[p] :=
      List.getElem?_eq_getElem hlen
    simp only []
    rw [hheld]
    exact ⟨_, rfl⟩

/-- Claim C10: when the task being finished or returned is absent from its
handling process's held-task list (as after `unregisterProcess` has emptied
that list), `storeResult`, `storeException` and `returnTask` still complete
normally — `TaskManager._removeTask` swallows the `ValueError` — and the
held-task lists are left untouched. -/
theorem claim10 (V : Type) (m : TaskManager V) (t : Task V) (r e tb : V)
    (now : Int)
    (hc : m.running_tasks.Consistent)
    (ht : t ∈ m.running_tasks.tasks)
    (hp : ∀ p, t.handling_processor = some p →
        p < m.tasks_by_process.length)
    (habs : ∀ p held, t.handling_processor = some p →
        m.tasks_by_process[p]? = some held → t.id ∉ held.map Task.id) :
    (∃ m', m.storeResult t.id r now = Except.ok m'
        ∧ m'.tasks_by_process = m.tasks_by_process)
    ∧ (∃ m', m.storeException t.id e tb now = Except.ok m'
        ∧ m'.tasks_by_process = m.tasks_by_process)
    ∧ (∃ m', m.returnTask t.id = Except.ok m'
        ∧ m'.tasks_by_process = m.tasks_by_process) := by
  refine ⟨?_, ?_, ?_⟩
  · unfold TaskManager.storeResult
    simp only []
    rw [taskWithId_ok hc ht]
    simp only [except_ok_bind]
    exact ⟨_, removeTask_m_noop hp habs, rfl⟩
  · unfold TaskManager.storeException
    simp only []
    rw [taskWithId_ok hc ht]
    simp only [except_ok_bind]
    exact ⟨_, removeTask_m_noop hp habs, rfl⟩
  · unfold TaskManager.returnTask
    rw [taskWithId_ok hc ht]
    simp only [except_ok_bind]
    have hnoop := removeTask_m_noop
      (m := { m with running_tasks := m.running_tasks.erased t }) hp habs
    rw [hnoop]
    simp only [except_ok_bind, pure_bind]
    exact ⟨_, rfl, rfl⟩

/-- Witness for C10: a coordinator whose held-task list for process 0 is
already empty while task `b_0` (handled by process 0) is still running. -/
theorem claim10_witness :
    (∃ m', TaskManager.storeResult
        { TaskManager.init Nat with
          running_tasks := (TaskQueue.init Nat).addTask
            { tag := "b", parameters := 2, id := "b_0",
              requesting_processor := none, handling_processor := some 0,
              request_time := none, start_time := none, end_time := none,
              completed := none } false
          tasks_by_process := [[]] }
        "b_0" 7 0 = Except.ok m'
      ∧ m'.tasks_by_process
          = ({ TaskManager.init Nat with
               running_tasks := (TaskQueue.init Nat).addTask
                 { tag := "b", parameters := 2, id := "b_0",
                   requesting_processor := none, handling_processor := some 0,
                   request_time := none, start_time := none, end_time := none,
                   completed := none } false
               tasks_by_process := [[]] } : TaskManager Nat).tasks_by_process)
    ∧ (∃ m', TaskManager.storeException
        { TaskManager.init Nat with
          running_tasks := (TaskQueue.init Nat).addTask
            { tag := "b", parameters := 2, id := "b_0",
              requesting_processor := none, handling_processor := some 0,
              request_time := none, start_time := none, end_time := none,
              completed := none } false
          tasks_by_process := [[]] }
        "b_0" 7 9 0 = Except.ok m'
      ∧ m'.tasks_by_process
          = ({ TaskManager.init Nat with
               running_tasks := (TaskQueue.init Nat).addTask
                 { tag := "b", parameters := 2, id := "b_0",
                   requesting_processor := none, handling_processor := some 0,
                   request_time := none, start_time := none, end_time := none,
                   completed := none } false
               tasks_by_process := [[]] } : TaskManager Nat).tasks_by_process)
    ∧ (∃ m', TaskManager.returnTask
        { TaskManager.init Nat with
          running_tasks := (TaskQueue.init Nat).addTask
            { tag := "b", parameters := 2, id := "b_0",
              requesting_processor := none, handling_processor := some 0,
              request_time := none, start_time := none, end_time := none,
              completed := none } false
          tasks_by_process := [[]] }
        "b_0" = Except.ok m'
      ∧ m'.tasks_by_process
          = ({ TaskManager.init Nat with
               running_tasks := (TaskQueue.init Nat).addTask
                 { tag := "b", parameters := 2, id := "b_0",
                   requesting_processor := none, handling_processor := some 0,
                   request_time := none, start_time := none, end_time := none,
                   completed := none } false
               tasks_by_process := [[]] } : TaskManager Nat).tasks_by_process) :=
  claim10 Nat
    { TaskManager.init Nat with
      running_tasks := (TaskQueue.init Nat).addTask
        { tag := "b", parameters := 2, id := "b_0",
          requesting_processor := none, handling_processor := some 0,
          request_time := none, start_time := none, end_time := none,
          completed := none } false
      tasks_by_process := [[]] }
    { tag := "b", parameters := 2, id := "b_0", requesting_processor := none,
      handling_processor := some 0, request_time := none, start_time := none,
      end_time := none, completed := none }
    7 7 9 0
    (addTask_consistent false (init_consistent Nat) (by decide))
    (by decide)
    (fun p hp => by cases hp; decide)
    (fun p held hp hheld => by cases hp; cases hheld; decide)

/-- Claim C4: for a running task, `storeException(id, e, tb)` followed by
`getResultWithTag(tag)` for that task's tag raises `TaskRaisedException`
carrying exactly the stored exception and traceback, instead of returning a
plain result (stated for a coordinator whose finished queue holds no other
task of that tag, so the round trip retrieves this task). -/
theorem claim4 (V : Type) (m : TaskManager V) (t : Task V) (e tb : V)
    (now : Int)
    (hrc : m.running_tasks.Consistent)
    (ht : t ∈ m.running_tasks.tasks)
    (hfc : m.finished_tasks.Consistent)
    (hempty : tagList m.finished_tasks t.tag = [])
    (hfresh : t.id ∉ qids m.finished_tasks)
    (hp : ∀ p, t.handling_processor = some p →
        p < m.tasks_by_process.length) :
    ∃ m', m.storeException t.id e tb now = Except.ok m'
      ∧ m'.getResultWithTag t.tag
          = Except.error (PyErr.taskRaised t.id t.tag e tb) := by
  have hok : ∃ m', m.storeException t.id e tb now = Except.ok m' := by
    unfold TaskManager.storeException
    simp only []
    rw [taskWithId_ok hrc ht]
    simp only [except_ok_bind]
    exact removeTask_m_total hp
  obtain ⟨m', hok⟩ := hok
  refine ⟨m', hok, ?_⟩
  obtain ⟨t', rq, tb₁, hw, hm⟩ := storeException_shape hok
  rw [taskWithId_ok hrc ht] at hw
  cases hw
  subst hm
  set task' : Task V :=
    { t with end_time := some now, completed := some false } with htask'
  have hfresh' : task'.id ∉ qids m.finished_tasks := hfresh
  have hcons' : (m.finished_tasks.addTask task' false).Consistent :=
    addTask_consistent false hfc hfresh'
  have htl : tagList (m.finished_tasks.addTask task' false) t.tag
      = [task'] := by
    have h1 := tagList_addTask_back m.finished_tasks task'
    have h2 : task'.tag = t.tag := rfl
    rw [h2] at h1
    rw [h1, hempty]
    rfl
  unfold TaskManager.getResultWithTag
  simp only []
  rw [firstTaskWithTag_ok hcons' htl]
  simp only [except_ok_bind]
  have hres : dictGet? task'.id
      (dictSet t.id (StoredValue.excPair e tb) m.results)
      = some (StoredValue.excPair e tb) := dictGet?_set_self t.id _ m.results
  rw [hres]
  simp only [except_ok_bind, pure_bind]

/-- Witness for C4 at a one-task coordinator. -/
theorem claim4_witness :
    ∃ m', TaskManager.storeException
        { TaskManager.init Nat with
          running_tasks := (TaskQueue.init Nat).addTask
            { tag := "b", parameters := 2, id := "b_0",
              requesting_processor := none, handling_processor := none,
              request_time := none, start_time := none, end_time := none,
              completed := none } false }
        "b_0" 99 999 5 = Except.ok m'
      ∧ m'.getResultWithTag "b"
          = Except.error (PyErr.taskRaised "b_0" "b" 99 999) :=
  claim4 Nat
    { TaskManager.init Nat with
      running_tasks := (TaskQueue.init Nat).addTask
        { tag := "b", parameters := 2, id := "b_0",
          requesting_processor := none, handling_processor := none,
          request_time := none, start_time := none, end_time := none,
          completed := none } false }
    { tag := "b", parameters := 2, id := "b_0", requesting_processor := none,
      handling_processor := none, request_time := none, start_time := none,
      end_time := none, completed := none }
    99 999 5
    (addTask_consistent false (init_consistent Nat) (by decide))
    (by decide)
    (init_consistent Nat)
    rfl
    (by decide)
    (fun p hp => Option.noConfusion hp)

/-! ### Claim C1: the submit / compute / retrieve pipeline -/

theorem dictErase_dictSet_of_none [DecidableEq κ] {k : κ} {v : β}
    {d : List (κ × β)} (h : dictGet? k d = none) :
    dictErase k (dictSet k v d) = d := by
  induction d with
  | nil => simp [dictSet, dictErase]
  | cons p rest ih =>
    by_cases hk : k = p.1
    · rw [dictGet?] at h
      simp [hk] at h
    · rw [dictGet?] at h
      rw [if_neg hk] at h
      simp [dictSet, dictErase, hk, ih h]

theorem oneCycle_spec [DecidableEq V] {m : TaskManager V} {t : Task V}
    {rest : List (Task V)} {r : V} {now : Int}
    (hwc : m.waiting_tasks.Consistent)
    (hwt : m.waiting_tasks.tasks = t :: rest)
    (hrc : m.running_tasks.Consistent)
    (hrt : m.running_tasks.tasks = [])
    (hfc : m.finished_tasks.Consistent)
    (hft : m.finished_tasks.tasks = [])
    (hres : dictGet? t.id m.results = none) :
    ∃ m', oneCycle m r now
        = Except.ok ((t.id, t.tag, StoredValue.plain r), m')
      ∧ m'.waiting_tasks = m.waiting_tasks.erased t
      ∧ m'.running_tasks.Consistent ∧ m'.running_tasks.tasks = []
      ∧ m'.finished_tasks.Consistent ∧ m'.finished_tasks.tasks = []
      ∧ m'.results = m.results := by
  have hga : m.getAnyTask none now = Except.ok ((t.id, t.tag, t.parameters),
      { m with waiting_tasks := m.waiting_tasks.erased t
               running_tasks := m.running_tasks.addTask
                 { t with handling_processor := none, start_time := some now }
                 false }) := by
    unfold TaskManager.getAnyTask TaskManager.checkoutTask
    rw [firstTask_ok hwc hwt]
    simp only [except_ok_bind, pure_bind]
    rfl
  have hfresh1 : ({ t with
      handling_processor := none, start_time := some now } : Task V).id ∉ qids m.running_tasks := by
    unfold qids
    rw [hrt]
    simp
  have hcr1 : (m.running_tasks.addTask
      { t with handling_processor := none, start_time := some now }
      false).Consistent := addTask_consistent false hrc hfresh1
  have hmem1 : ({ t with
      handling_processor := none, start_time := some now } : Task V) ∈ (m.running_tasks.addTask
      { t with handling_processor := none, start_time := some now }
      false).tasks := by
    rw [tasks_addTask]
    exact List.mem_append_right _ (List.mem_singleton.mpr rfl)
  have htw := taskWithId_ok hcr1 hmem1
  have hfresh2 : ({ t with
      handling_processor := none, start_time := some now,
      end_time := some now, completed := some true } : Task V).id
      ∉ qids m.finished_tasks := by
    unfold qids
    rw [hft]
    simp
  have hcf2 : (m.finished_tasks.addTask
      { t with
        handling_processor := none, start_time := some now,
        end_time := some now, completed := some true }
      false).Consistent := addTask_consistent false hfc hfresh2
  have hft2 : (m.finished_tasks.addTask
      { t with
        handling_processor := none, start_time := some now,
        end_time := some now, completed := some true } false).tasks
      = { t with
          handling_processor := none, start_time := some now,
          end_time := some now, completed := some true } :: [] := by
    rw [tasks_addTask, hft]
    rfl
  have hff := firstTask_ok hcf2 hft2
  refine ⟨{ m with
      waiting_tasks := m.waiting_tasks.erased t,
      running_tasks := (m.running_tasks.addTask
        { t with
          handling_processor := none, start_time := some now } false).erased
        { t with
          handling_processor := none, start_time := some now },
      finished_tasks := (m.finished_tasks.addTask
        { t with
          handling_processor := none, start_time := some now,
          end_time := some now, completed := some true } false).erased
        { t with
          handling_processor := none, start_time := some now,
          end_time := some now, completed := some true },
      results := dictErase t.id (dictSet t.id (StoredValue.plain r) m.results) },
    ?_, rfl, ?_, ?_, ?_, ?_, ?_⟩
  · unfold oneCycle
    rw [hga]
    simp only [except_ok_bind, pure_bind]
    unfold TaskManager.storeResult
    simp only [] at htw ⊢
    rw [htw]
    simp only [except_ok_bind, pure_bind]
    unfold TaskManager.removeTask
    simp only []
    simp only [except_ok_bind, pure_bind]
    unfold TaskManager.getAnyResult
    simp only [] at hff ⊢
    rw [hff]
    simp only [except_ok_bind, pure_bind]
    rw [dictGet?_set_self]
    simp only [except_ok_bind, pure_bind]
    rfl
  · exact erased_consistent hcr1 hmem1
  · show ((m.running_tasks.addTask
        { t with
          handling_processor := none, start_time := some now }
        false).erased
        { t with
          handling_processor := none, start_time := some now }).tasks
      = []
    unfold TaskQueue.erased
    rw [tasks_addTask, hrt]
    simp [List.eraseP_cons]
  · exact erased_consistent hcf2 (by rw [hft2]; exact List.mem_singleton.mpr rfl)
  · show ((m.finished_tasks.addTask
        { t with
          handling_processor := none, start_time := some now,
          end_time := some now, completed := some true }
        false).erased
        { t with
          handling_processor := none, start_time := some now,
          end_time := some now, completed := some true }).tasks = []
    unfold TaskQueue.erased
    rw [hft2]
    simp [List.eraseP_cons]
  · show dictErase t.id (dictSet t.id (StoredValue.plain r) m.results)
      = m.results
    exact dictErase_dictSet_of_none hres

theorem runCycles_spec [DecidableEq V] {now : Int} :
    ∀ (pend : List (Task V)) (ress : List V) (m : TaskManager V),
      pend.length = ress.length →
      m.waiting_tasks.Consistent → m.waiting_tasks.tasks = pend →
      m.running_tasks.Consistent → m.running_tasks.tasks = [] →
      m.finished_tasks.Consistent → m.finished_tasks.tasks = [] →
      (∀ t ∈ pend, dictGet? t.id m.results = none) →
      ∃ m', runCycles now ress m = Except.ok
        (pend.zipWith (fun t r => (t.id, t.tag, StoredValue.plain r)) ress,
          m') := by
  intro pend
  induction pend with
  | nil =>
    intro ress m hlen hwc hwt hrc hrt hfc hft hres
    cases ress with
    | nil => exact ⟨m, rfl⟩
    | cons r rs => simp at hlen
  | cons t rest ih =>
    intro ress m hlen hwc hwt hrc hrt hfc hft hres
    cases ress with
    | nil => simp at hlen
    | cons r rs =>
      obtain ⟨m₁, hcy, hw1, hrc1, hrt1, hfc1, hft1, hres1⟩ :=
        oneCycle_spec hwc hwt hrc hrt hfc hft
          (hres t (hwt ▸ List.mem_cons_self t rest))
      have hw1t : m₁.waiting_tasks.tasks = rest := by
        rw [hw1]
        show (m.waiting_tasks.erased t).tasks = rest
        unfold TaskQueue.erased
        rw [hwt]
        simp [List.eraseP_cons]
      have hw1c : m₁.waiting_tasks.Consistent := by
        rw [hw1]
        exact erased_consistent hwc (hwt ▸ List.mem_cons_self t rest)
      have hres1' : ∀ t' ∈ rest, dictGet? t'.id m₁.results = none := by
        intro t' ht'
        rw [hres1]
        exact hres t' (hwt ▸ List.mem_cons_of_mem t ht')
      obtain ⟨m', hrun⟩ := ih rs m₁ (by simpa using hlen)
        hw1c hw1t hrc1 hrt1 hfc1 hft1 hres1'
      refine ⟨m', ?_⟩
      show (do
        let (o, m₁) ← oneCycle m r now
        let (os, m'') ← runCycles now rs m₁
        pure (o :: os, m'')) = _
      rw [hcy]
      simp only [except_ok_bind, pure_bind]
      rw [hrun]
      simp only [except_ok_bind, pure_bind]
      rfl

theorem pendingTasks_length (now : Int) :
    ∀ (k : Nat) (reqs : List (String × V)),
      (pendingTasks now k reqs (V := V)).length = reqs.length := by
  intro k reqs
  induction reqs generalizing k with
  | nil => rfl
  | cons rp rest ih =>
    obtain ⟨tag, p⟩ := rp
    simp [pendingTasks, ih]

theorem pendingTasks_id_bound {now : Int} :
    ∀ (reqs : List (String × V)) (k : Nat) (t : Task V),
      t ∈ pendingTasks now k reqs →
      ∃ n, k ≤ n ∧ t.id = t.tag ++ "_" ++ Nat.repr n := by
  intro reqs
  induction reqs with
  | nil =>
    intro k t ht
    cases ht
  | cons rp rest ih =>
    obtain ⟨tag, p⟩ := rp
    intro k t ht
    rcases List.mem_cons.mp ht with h | h
    · subst h
      exact ⟨k, Nat.le_refl k, rfl⟩
    · obtain ⟨n, hn, hid⟩ := ih (k + 1) t h
      exact ⟨n, Nat.le_of_succ_le hn, hid⟩

theorem pendingTasks_ids_nodup {now : Int} :
    ∀ (reqs : List (String × V)) (k : Nat),
      ((pendingTasks now k reqs).map Task.id).Nodup := by
  intro reqs
  induction reqs with
  | nil =>
    intro k
    simp [pendingTasks]
  | cons rp rest ih =>
    obtain ⟨tag, p⟩ := rp
    intro k
    simp only [pendingTasks, List.map_cons, List.nodup_cons]
    refine ⟨fun hmem => ?_, ih (k + 1)⟩
    obtain ⟨t, ht, hid⟩ := List.mem_map.mp hmem
    obtain ⟨n, hn, hidn⟩ := pendingTasks_id_bound rest (k + 1) t ht
    rw [hidn] at hid
    have := (taskId_inj hid).2
    omega

theorem pendingTasks_zip_expected {now : Int} :
    ∀ (reqs : List (String × V)) (ress : List V) (k : Nat),
      (pendingTasks now k reqs).zipWith
          (fun t r => (t.id, t.tag, StoredValue.plain r)) ress
        = expectedRetrieved k reqs ress := by
  intro reqs
  induction reqs with
  | nil =>
    intro ress k
    cases ress <;> rfl
  | cons rp rest ih =>
    obtain ⟨tag, p⟩ := rp
    intro ress k
    cases ress with
    | nil => rfl
    | cons r rs =>
      show (tag ++ "_" ++ Nat.repr k, tag, StoredValue.plain r)
          :: (pendingTasks now (k + 1) rest).zipWith _ rs = _
      rw [ih rs (k + 1)]
      rfl

theorem expected_map_fst {now : Int} :
    ∀ (reqs : List (String × V)) (ress : List V) (k : Nat),
      ress.length = reqs.length →
      (expectedRetrieved k reqs ress (V := V)).map (fun o => o.1)
        = (pendingTasks now k reqs).map Task.id := by
  intro reqs
  induction reqs with
  | nil =>
    intro ress k hlen
    cases ress with
    | nil => rfl
    | cons r rs => simp at hlen
  | cons rp rest ih =>
    obtain ⟨tag, p⟩ := rp
    intro ress k hlen
    cases ress with
    | nil => simp at hlen
    | cons r rs =>
      show (tag ++ "_" ++ Nat.repr k)
          :: (expectedRetrieved (k + 1) rest rs).map (fun o => o.1) = _
      rw [ih rs (k + 1) (by simpa using hlen)]
      rfl

theorem submitAll_spec {now : Int} :
    ∀ (reqs : List (String × V)) (m : TaskManager V),
      m.waiting_tasks.Consistent →
      (∀ t ∈ m.waiting_tasks.tasks, ∃ n, n < m.id_counter
          ∧ t.id = t.tag ++ "_" ++ Nat.repr n) →
      ∃ m', submitAll now reqs m
          = ((pendingTasks now m.id_counter reqs).map Task.id, m')
        ∧ m'.waiting_tasks.tasks
            = m.waiting_tasks.tasks ++ pendingTasks now m.id_counter reqs
        ∧ m'.waiting_tasks.Consistent
        ∧ m'.running_tasks = m.running_tasks
        ∧ m'.finished_tasks = m.finished_tasks
        ∧ m'.results = m.results := by
  intro reqs
  induction reqs with
  | nil =>
    intro m hwc hbound
    exact ⟨m, rfl, by simp [pendingTasks], hwc, rfl, rfl, rfl⟩
  | cons rp rest ih =>
    obtain ⟨tag, p⟩ := rp
    intro m hwc hbound
    have hfresh : (tag ++ "_" ++ Nat.repr m.id_counter) ∉ qids m.waiting_tasks := by
      intro hmem
      obtain ⟨t, ht, hid⟩ := List.mem_map.mp hmem
      obtain ⟨n, hn, hidn⟩ := hbound t ht
      rw [hidn] at hid
      have := (taskId_inj hid).2
      omega
    have hwc1 : ((m.addTaskRequest tag p none now).2).waiting_tasks.Consistent :=
      addTask_consistent false hwc hfresh
    have hbound1 : ∀ t ∈ ((m.addTaskRequest tag p none now).2).waiting_tasks.tasks,
        ∃ n, n < ((m.addTaskRequest tag p none now).2).id_counter
          ∧ t.id = t.tag ++ "_" ++ Nat.repr n := by
      intro t ht
      have htasks : ((m.addTaskRequest tag p none now).2).waiting_tasks.tasks
          = m.waiting_tasks.tasks ++
            [{ tag := tag, parameters := p,
               id := tag ++ "_" ++ Nat.repr m.id_counter,
               requesting_processor := none, handling_processor := none,
               request_time := some now, start_time := none, end_time := none,
               completed := none }] := rfl
      rw [htasks] at ht
      rcases List.mem_append.mp ht with h | h
      · obtain ⟨n, hn, hid⟩ := hbound t h
        exact ⟨n, Nat.lt_succ_of_lt hn, hid⟩
      · rw [List.mem_singleton.mp h]
        exact ⟨m.id_counter, Nat.lt_succ_self _, rfl⟩
    obtain ⟨m', hsub, hwt', hwc', hr', hf', hres'⟩ :=
      ih ((m.addTaskRequest tag p none now).2) hwc1 hbound1
    refine ⟨m', ?_, ?_, hwc', hr', hf', hres'⟩
    · show (let (task_id, m₁) := m.addTaskRequest tag p none now
        let (task_ids, m'') := submitAll now rest m₁
        (task_id :: task_ids, m'')) = _
      simp only []
      rw [hsub]
      rfl
    · rw [hwt']
      show (m.waiting_tasks.tasks ++
          [{ tag := tag, parameters := p,
             id := tag ++ "_" ++ Nat.repr m.id_counter,
             requesting_processor := none, handling_processor := none,
             request_time := some now, start_time := none, end_time := none,
             completed := none }]) ++
          pendingTasks now (m.id_counter + 1) rest = _
      rw [List.append_assoc]
      rfl

/-- Claim C1: submitting any batch of requests through `addTaskRequest` and
then running one `getAnyTask` + `storeResult` + `getAnyResult` cycle per
stored result retrieves every submitted task id exactly once (the returned
ids are pairwise distinct), in submission order, each together with the tag
it was submitted under and the result stored for it in its cycle. -/
theorem claim1 (V : Type) [DecidableEq V] (reqs : List (String × V))
    (ress : List V) (now : Int) (hlen : ress.length = reqs.length) :
    ∃ ids m₀ outs m',
      submitAll now reqs (TaskManager.init V) = (ids, m₀)
      ∧ runCycles now ress m₀ = Except.ok (outs, m')
      ∧ outs = expectedRetrieved 0 reqs ress
      ∧ outs.map (fun o => o.1) = ids
      ∧ ids.Nodup := by
  obtain ⟨m₀, hsub, hwt, hwc, hr, hf, hres⟩ :=
    submitAll_spec reqs (TaskManager.init V) (init_consistent V)
      (by intro t ht; cases ht)
  have hwt0 : m₀.waiting_tasks.tasks = pendingTasks now 0 reqs := by
    rw [hwt]
    rfl
  have hlen0 : (pendingTasks now 0 reqs (V := V)).length = ress.length := by
    rw [pendingTasks_length now 0 reqs, hlen]
  obtain ⟨m', hrun⟩ := runCycles_spec (pendingTasks now 0 reqs) ress m₀ hlen0
    hwc hwt0 (by rw [hr]; exact init_consistent V) (by rw [hr]; rfl)
    (by rw [hf]; exact init_consistent V) (by rw [hf]; rfl)
    (by intro t ht; rw [hres]; rfl)
  refine ⟨_, m₀, _, m', hsub, hrun, pendingTasks_zip_expected reqs ress 0, ?_, ?_⟩
  · rw [pendingTasks_zip_expected reqs ress 0]
    exact expected_map_fst reqs ress 0 hlen
  · exact pendingTasks_ids_nodup reqs 0

/-- Witness for C1: two requests, two cycles, retrieved ids `a_0`, `b_1`. -/
theorem claim1_witness :
    ∃ ids m₀ outs m',
      submitAll 0 [("a", 1), ("b", 2)] (TaskManager.init Nat) = (ids, m₀)
      ∧ runCycles 0 [10, 20] m₀ = Except.ok (outs, m')
      ∧ outs = expectedRetrieved 0 [("a", 1), ("b", 2)] [10, 20]
      ∧ outs.map (fun o => o.1) = ids
      ∧ ids.Nodup :=
  claim1 Nat [("a", 1), ("b", 2)] [10, 20] 0 rfl

/-! ### Claim C5: unregistering a process requeues its held tasks -/

theorem returnTask_spec [DecidableEq V] {m : TaskManager V} {t : Task V}
    {p : Nat} (hc : m.running_tasks.Consistent)
    (ht : t ∈ m.running_tasks.tasks)
    (hhp : t.handling_processor = some p)
    (hheld : m.tasks_by_process[p]? = some []) :
    m.returnTask t.id = Except.ok
      { m with
        running_tasks := m.running_tasks.erased t,
        waiting_tasks := m.waiting_tasks.addTask
          { t with start_time := none, handling_processor := none } true } := by
  have hplen : p < m.tasks_by_process.length := by
    rcases List.getElem?_eq_some_iff.mp hheld with ⟨hlt, _⟩
    exact hlt
  unfold TaskManager.returnTask
  rw [taskWithId_ok hc ht]
  simp only [except_ok_bind]
  have hp1 : ∀ p', t.handling_processor = some p' →
      p' < ({ m with running_tasks := m.running_tasks.erased t }
        : TaskManager V).tasks_by_process.length := by
    intro p' hp'
    rw [hhp] at hp'
    cases hp'
    exact hplen
  have habs1 : ∀ p' held', t.handling_processor = some p' →
      ({ m with running_tasks := m.running_tasks.erased t }
        : TaskManager V).tasks_by_process[p']? = some held' →
      t.id ∉ held'.map Task.id := by
    intro p' held' hp' hheld'
    rw [hhp] at hp'
    cases hp'
    have h2 : some ([] : List (Task V)) = some held' := hheld.symm.trans hheld'
    cases h2
    simp
  have hnoop := removeTask_m_noop hp1 habs1
  rw [hnoop]
  simp only [except_ok_bind, pure_bind]
  rfl

theorem returnLoop_spec [DecidableEq V] {p : Nat} :
    ∀ (held : List (Task V)) (m : TaskManager V),
      m.running_tasks.Consistent →
      (∀ t ∈ held, t ∈ m.running_tasks.tasks
        ∧ t.handling_processor = some p) →
      (held.map Task.id).Nodup →
      m.tasks_by_process[p]? = some [] →
      ∃ m', held.foldlM (fun acc t => acc.returnTask t.id) m = Except.ok m'
        ∧ m'.waiting_tasks.tasks = m.waiting_tasks.tasks
            ++ held.map (fun t =>
              { t with start_time := none, handling_processor := none })
        ∧ m'.running_tasks.Consistent
        ∧ m'.active_processes = m.active_processes
        ∧ m'.tasks_by_process = m.tasks_by_process
        ∧ m'.watchdog = m.watchdog := by
  intro held
  induction held with
  | nil =>
    intro m hc hmem hnd hheld
    exact ⟨m, rfl, by simp, hc, rfl, rfl, rfl⟩
  | cons t rest ih =>
    intro m hc hmem hnd hheld
    have htm := (hmem t (List.mem_cons_self t rest)).1
    have htp := (hmem t (List.mem_cons_self t rest)).2
    have hret := returnTask_spec hc htm htp hheld
    simp only [List.map_cons, List.nodup_cons] at hnd
    have hc1 : (m.running_tasks.erased t).Consistent := erased_consistent hc htm
    have hmem1 : ∀ t' ∈ rest, t' ∈ (m.running_tasks.erased t).tasks
        ∧ t'.handling_processor = some p := by
      intro t' ht'
      refine ⟨?_, (hmem t' (List.mem_cons_of_mem t ht')).2⟩
      rw [tasks_erased hc htm]
      have hne : t' ≠ t := by
        intro hq
        exact hnd.1 (hq ▸ List.mem_map_of_mem Task.id ht')
      exact (List.mem_erase_of_ne hne).mpr (hmem t' (List.mem_cons_of_mem t ht')).1
    obtain ⟨m', hfold, hw, hrc', hact', htbp', hwd'⟩ := ih
      { m with
        running_tasks := m.running_tasks.erased t,
        waiting_tasks := m.waiting_tasks.addTask
          { t with start_time := none, handling_processor := none } true }
      hc1 hmem1 hnd.2 hheld
    refine ⟨m', ?_, ?_, hrc', hact', htbp', hwd'⟩
    · rw [List.foldlM_cons, hret]
      simp only [except_ok_bind]
      exact hfold
    · rw [hw]
      show ((m.waiting_tasks.addTask
          { t with start_time := none, handling_processor := none } true).tasks)
          ++ _ = _
      rw [tasks_addTask, List.append_assoc]
      rfl

/-- Claim C5: `unregisterProcess(pid)` on a process holding `N` running
tasks removes `pid` from the registry, empties its held-task list, and makes
exactly those `N` tasks reappear in the waiting queue (appended in held-list
order), each with `handling_processor` reset to `None` and `start_time`
cleared. -/
theorem claim5 (V : Type) [DecidableEq V] (m : TaskManager V) (pid : Nat)
    (held : List (Task V))
    (hact : pid ∈ m.active_processes)
    (hactnd : m.active_processes.Nodup)
    (hheld : m.tasks_by_process[pid]? = some held)
    (hrc : m.running_tasks.Consistent)
    (hmem : ∀ t ∈ held, t ∈ m.running_tasks.tasks
      ∧ t.handling_processor = some pid)
    (hnd : (held.map Task.id).Nodup) :
    ∃ m', m.unregisterProcess pid = Except.ok m'
      ∧ m'.waiting_tasks.tasks = m.waiting_tasks.tasks
          ++ held.map (fun t =>
            { t with start_time := none, handling_processor := none })
      ∧ pid ∉ m'.active_processes
      ∧ m'.tasks_by_process[pid]? = some [] := by
  have hplen : pid < m.tasks_by_process.length := by
    rcases List.getElem?_eq_some_iff.mp hheld with ⟨hlt, _⟩
    exact hlt
  have hrm : pyRemoveFirst? (fun pr => pr == pid) m.active_processes
      = some (m.active_processes.erase pid) := by
    rw [pyRemoveFirst?_eq, if_pos]
    · rw [List.erase_eq_eraseP' pid]
    · exact List.any_eq_true.mpr ⟨pid, hact, beq_self_eq_true pid⟩
  obtain ⟨m₂, hfold, hw, hrc', hact', htbp', hwd'⟩ := returnLoop_spec held
    { m with
      active_processes := m.active_processes.erase pid,
      tasks_by_process := m.tasks_by_process.set pid [] }
    hrc hmem hnd (List.getElem?_set_self hplen)
  have hpidout : pid ∉ m.active_processes.erase pid :=
    hactnd.not_mem_erase
  cases hwd : m₂.watchdog with
  | none =>
    refine ⟨m₂, ?_, ?_, ?_, ?_⟩
    · unfold TaskManager.unregisterProcess
      rw [hrm]
      simp only [except_ok_bind, pure_bind]
      rw [hheld]
      simp only [except_ok_bind, pure_bind]
      rw [hfold]
      simp only [except_ok_bind]
      rw [hwd]
      rfl
    · rw [hw]
    · rw [hact']
      exact hpidout
    · rw [htbp']
      exact List.getElem?_set_self hplen
  | some w =>
    refine ⟨{ m₂ with watchdog := some (w.unregisterProcess pid) }, ?_, ?_, ?_, ?_⟩
    · unfold TaskManager.unregisterProcess
      rw [hrm]
      simp only [except_ok_bind, pure_bind]
      rw [hheld]
      simp only [except_ok_bind, pure_bind]
      rw [hfold]
      simp only [except_ok_bind]
      rw [hwd]
      rfl
    · show m₂.waiting_tasks.tasks = _
      rw [hw]
    · show pid ∉ m₂.active_processes
      rw [hact']
      exact hpidout
    · show m₂.tasks_by_process[pid]? = some []
      rw [htbp']
      exact List.getElem?_set_self hplen

/-- Witness for C5: process 0 holds the single running task `b_0`. -/
theorem claim5_witness :
    ∃ m', TaskManager.unregisterProcess
      { TaskManager.init Nat with
        running_tasks := (TaskQueue.init Nat).addTask
          { tag := "b", parameters := 2, id := "b_0", requesting_processor := none, handling_processor := some 0, request_time := none, start_time := none, end_time := none, completed := none } false,
        process_counter := 1,
        active_processes := [0],
        tasks_by_process := [[{ tag := "b", parameters := 2, id := "b_0", requesting_processor := none, handling_processor := some 0, request_time := none, start_time := none, end_time := none, completed := none }]] } 0 = Except.ok m'
      ∧ m'.waiting_tasks.tasks
          = ({ TaskManager.init Nat with
              running_tasks := (TaskQueue.init Nat).addTask
                { tag := "b", parameters := 2, id := "b_0", requesting_processor := none, handling_processor := some 0, request_time := none, start_time := none, end_time := none, completed := none } false,
              process_counter := 1,
              active_processes := [0],
              tasks_by_process := [[{ tag := "b", parameters := 2, id := "b_0", requesting_processor := none, handling_processor := some 0, request_time := none, start_time := none, end_time := none, completed := none }]] } : TaskManager Nat).waiting_tasks.tasks
            ++ ([{ tag := "b", parameters := 2, id := "b_0", requesting_processor := none, handling_processor := some 0, request_time := none, start_time := none, end_time := none, completed := none }] : List (Task Nat)).map (fun t =>
                { t with start_time := none, handling_processor := none })
      ∧ 0 ∉ m'.active_processes
      ∧ m'.tasks_by_process[0]? = some [] :=
  claim5 Nat
    { TaskManager.init Nat with
      running_tasks := (TaskQueue.init Nat).addTask
        { tag := "b", parameters := 2, id := "b_0", requesting_processor := none, handling_processor := some 0, request_time := none, start_time := none, end_time := none, completed := none } false,
      process_counter := 1,
      active_processes := [0],
      tasks_by_process := [[{ tag := "b", parameters := 2, id := "b_0", requesting_processor := none, handling_processor := some 0, request_time := none, start_time := none, end_time := none, completed := none }]] }
    0
    [{ tag := "b", parameters := 2, id := "b_0", requesting_processor := none,
       handling_processor := some 0, request_time := none, start_time := none,
       end_time := none, completed := none }]
    (by decide)
    (by decide)
    rfl
    (addTask_consistent false (init_consistent Nat) (by decide))
    (by decide)
    (by decide)

/-! ### Claim C6: the watchdog's dead-process rule -/

theorem dictGet?_isSome_of_mem_keys [DecidableEq κ] {k : κ}
    {d : List (κ × β)} (h : k ∈ d.map Prod.fst) : (dictGet? k d).isSome := by
  induction d with
  | nil => simp at h
  | cons q rest ih =>
    by_cases hq : k = q.1
    · simp [dictGet?, hq]
    · have hmem : k ∈ rest.map Prod.fst := by
        simp only [List.map_cons, List.mem_cons] at h
        tauto
      simp [dictGet?, hq, ih hmem]

theorem watchdogScan_spec (V : Type) (w : Watchdog) (now : Int) :
    ∀ pids : List Nat,
      (∀ pid ∈ pids, (dictGet? pid w.last_ping).isSome
        ∧ (dictGet? pid w.ping_period).isSome) →
      ∃ dead, watchdogScan V w now pids = Except.ok dead
        ∧ ∀ pid, pid ∈ dead ↔ pid ∈ pids
            ∧ ∃ lp pp, dictGet? pid w.last_ping = some lp
              ∧ dictGet? pid w.ping_period = some pp
              ∧ now - lp > 2 * pp := by
  intro pids
  induction pids with
  | nil =>
    intro hs
    refine ⟨[], rfl, fun pid => ?_⟩
    simp
  | cons pid rest ih =>
    intro hs
    obtain ⟨hlp, hpp⟩ := hs pid (List.mem_cons_self pid rest)
    obtain ⟨lp, hlp⟩ := Option.isSome_iff_exists.mp hlp
    obtain ⟨pp, hpp⟩ := Option.isSome_iff_exists.mp hpp
    obtain ⟨tail, htail, hiff⟩ := ih (fun q hq => hs q (List.mem_cons_of_mem pid hq))
    refine ⟨if now - lp > 2 * pp then pid :: tail else tail, ?_, ?_⟩
    · unfold watchdogScan
      rw [hlp]
      simp only [except_ok_bind, pure_bind]
      rw [hpp]
      simp only [except_ok_bind, pure_bind]
      rw [htail]
      simp only [except_ok_bind, pure_bind]
      rfl
    · intro q
      by_cases hc : now - lp > 2 * pp
      · rw [if_pos hc]
        by_cases hq : q = pid
        · subst hq
          constructor
          · intro _
            exact ⟨List.mem_cons_self q rest, lp, pp, hlp, hpp, hc⟩
          · intro _
            exact List.mem_cons_self q tail
        · simp only [List.mem_cons, hq, false_or]
          rw [hiff q]
      · rw [if_neg hc]
        rw [hiff q]
        by_cases hq : q = pid
        · subst hq
          constructor
          · intro h
            exact ⟨List.mem_cons_of_mem q h.1, h.2⟩
          · rintro ⟨_, lp', pp', hlp', hpp', hgt⟩
            rw [hlp] at hlp'
            rw [hpp] at hpp'
            cases hlp'
            cases hpp'
            exact absurd hgt hc
        · constructor
          · rintro ⟨h1, h2⟩
            exact ⟨List.mem_cons_of_mem pid h1, h2⟩
          · rintro ⟨h1, h2⟩
            rcases List.mem_cons.mp h1 with h | h
            · exact absurd h hq
            · exact ⟨h, h2⟩

/-- Claim C6: on one watchdog cycle, a monitored process is put on the dead
list exactly when the elapsed time since its last ping exceeds twice its
configured ping period, and the cycle then unregisters precisely the dead
list through `TaskManager.unregisterProcess` (the same path as voluntary
shutdown, which requeues held tasks). -/
theorem claim6 (V : Type) (m : TaskManager V) (w : Watchdog) (now : Int)
    (hw : m.watchdog = some w)
    (hsync : ∀ pid ∈ w.ping_period.map Prod.fst,
      (dictGet? pid w.last_ping).isSome) :
    ∃ dead,
      watchdogScan V w now (w.ping_period.map Prod.fst) = Except.ok dead
      ∧ (∀ pid, pid ∈ dead ↔ pid ∈ w.ping_period.map Prod.fst
          ∧ ∃ lp pp, dictGet? pid w.last_ping = some lp
            ∧ dictGet? pid w.ping_period = some pp
            ∧ now - lp > 2 * pp)
      ∧ m.watchdogCycle now
          = dead.foldlM (fun acc pid => acc.unregisterProcess pid) m := by
  have hkeys : ∀ pid ∈ w.ping_period.map Prod.fst,
      (dictGet? pid w.last_ping).isSome
        ∧ (dictGet? pid w.ping_period).isSome := by
    intro pid hpid
    exact ⟨hsync pid hpid, dictGet?_isSome_of_mem_keys hpid⟩
  obtain ⟨dead, hscan, hiff⟩ :=
    watchdogScan_spec V w now (w.ping_period.map Prod.fst) hkeys
  refine ⟨dead, hscan, hiff, ?_⟩
  unfold TaskManager.watchdogCycle
  rw [hw]
  simp only []
  rw [hscan]
  simp only [except_ok_bind]

/-- Witness for C6: one monitored process with period 5, last ping at 0,
checked at time 11. -/
theorem claim6_witness :
    ∃ dead,
      watchdogScan Nat { ping_period := [(0, 5)], last_ping := [(0, 0)], done := false } 11
          (({ ping_period := [(0, 5)], last_ping := [(0, 0)], done := false }
            : Watchdog).ping_period.map Prod.fst) = Except.ok dead
      ∧ (∀ pid, pid ∈ dead ↔
          pid ∈ ({ ping_period := [(0, 5)], last_ping := [(0, 0)], done := false } : Watchdog).ping_period.map Prod.fst
          ∧ ∃ lp pp,
            dictGet? pid ({ ping_period := [(0, 5)], last_ping := [(0, 0)], done := false } : Watchdog).last_ping = some lp
            ∧ dictGet? pid ({ ping_period := [(0, 5)], last_ping := [(0, 0)], done := false } : Watchdog).ping_period = some pp
            ∧ 11 - lp > 2 * pp)
      ∧ TaskManager.watchdogCycle
          { TaskManager.init Nat with
            watchdog := some { ping_period := [(0, 5)], last_ping := [(0, 0)], done := false } } 11
          = dead.foldlM (fun acc pid => acc.unregisterProcess pid)
              { TaskManager.init Nat with
                watchdog := some { ping_period := [(0, 5)], last_ping := [(0, 0)], done := false } } :=
  claim6 Nat
    { TaskManager.init Nat with
      watchdog := some { ping_period := [(0, 5)], last_ping := [(0, 0)], done := false } }
    { ping_period := [(0, 5)], last_ping := [(0, 0)], done := false }
    11 rfl (by decide)

/-! ### Claim C7: queue-membership invariants across arbitrary runs -/

theorem erased_tasks_sublist (q : TaskQueue V) (t : Task V) :
    (q.erased t).tasks.Sublist q.tasks := List.eraseP_sublist q.tasks

theorem mem_qids_erased [DecidableEq V] {q : TaskQueue V} {t : Task V}
    {i : String} (hc : q.Consistent) (ht : t ∈ q.tasks) :
    i ∈ qids (q.erased t) ↔ i ∈ qids q ∧ i ≠ t.id := by
  have htasks : (q.erased t).tasks = q.tasks.erase t := tasks_erased hc ht
  have hnodup : q.tasks.Nodup := List.Nodup.of_map Task.id hc.ids_nodup
  unfold qids
  rw [htasks]
  constructor
  · intro hmem
    obtain ⟨x, hx, hxi⟩ := List.mem_map.mp hmem
    have hxq : x ∈ q.tasks := (List.erase_sublist t q.tasks).mem hx
    refine ⟨hxi ▸ List.mem_map_of_mem Task.id hxq, fun hq => ?_⟩
    have hxt : x = t := id_eq_of_mem hc.ids_nodup hxq ht (hxi.trans hq)
    subst hxt
    exact hnodup.not_mem_erase hx
  · rintro ⟨hmem, hne⟩
    obtain ⟨x, hx, hxi⟩ := List.mem_map.mp hmem
    have hxt : x ≠ t := fun hq => hne (hxi ▸ hq ▸ rfl)
    exact hxi ▸ List.mem_map_of_mem Task.id ((List.mem_erase_of_ne hxt).mpr hx)

theorem consistent_mem_iff {q : TaskQueue V} (hc : q.Consistent) (t : Task V) :
    t ∈ q.tasks ↔
      t ∈ tagList q t.tag ∧ dictGet? t.id q.tasks_by_id = some t := by
  constructor
  · intro ht
    refine ⟨?_, ?_⟩
    · exact ((hc.tag_perm t.tag).mem_iff).mpr
        (List.mem_filter.mpr ⟨ht, beq_self_eq_true t.tag⟩)
    · rw [hc.id_find]
      exact find?_of_id_nodup hc.ids_nodup ht
  · rintro ⟨_, hfind⟩
    rw [hc.id_find] at hfind
    exact List.mem_of_find?_eq_some hfind

theorem consistent_mem_iff_tag {q : TaskQueue V} (hc : q.Consistent)
    (t : Task V) : t ∈ q.tasks ↔ t ∈ tagList q t.tag := by
  constructor
  · intro ht
    exact ((hc.tag_perm t.tag).mem_iff).mpr
      (List.mem_filter.mpr ⟨ht, beq_self_eq_true t.tag⟩)
  · intro ht
    have := (hc.tag_perm t.tag).mem_iff.mp ht
    exact (List.mem_filter.mp this).1

theorem consistent_mem_iff_id {q : TaskQueue V} (hc : q.Consistent)
    (t : Task V) : t ∈ q.tasks ↔ dictGet? t.id q.tasks_by_id = some t := by
  constructor
  · intro ht
    rw [hc.id_find]
    exact find?_of_id_nodup hc.ids_nodup ht
  · intro hfind
    rw [hc.id_find] at hfind
    exact List.mem_of_find?_eq_some hfind

theorem inv_move_wait_to_run [DecidableEq V] {m : TaskManager V} {t : Task V}
    (hInv : m.Inv) (ht : t ∈ m.waiting_tasks.tasks) (pid : Option Nat)
    (now : Int) (tb : List (List (Task V))) :
    TaskManager.Inv { m with
      waiting_tasks := m.waiting_tasks.erased t,
      running_tasks := m.running_tasks.addTask
        { t with handling_processor := pid, start_time := some now } false,
      tasks_by_process := tb } := by
  have hid : t.id ∈ qids m.waiting_tasks := List.mem_map_of_mem Task.id ht
  have hfresh : t.id ∉ qids m.running_tasks := hInv.disj_wr t.id hid
  have hqr : qids (m.running_tasks.addTask
      { t with handling_processor := pid, start_time := some now } false)
      = qids m.running_tasks ++ [t.id] := qids_addTask _ _ _
  constructor
  · exact erased_consistent hInv.wq ht
  · exact addTask_consistent false hInv.rq hfresh
  · exact hInv.fq
  · intro i hi
    rw [mem_qids_erased hInv.wq ht] at hi
    rw [hqr]
    intro hmem
    rcases List.mem_append.mp hmem with h | h
    · exact hInv.disj_wr i hi.1 h
    · exact hi.2 (List.mem_singleton.mp h)
  · intro i hi
    rw [mem_qids_erased hInv.wq ht] at hi
    exact hInv.disj_wf i hi.1
  · intro i hi
    rw [hqr] at hi
    rcases List.mem_append.mp hi with h | h
    · exact hInv.disj_rf i h
    · exact (List.mem_singleton.mp h) ▸ hInv.disj_wf t.id hid
  · intro x hx
    rcases List.mem_append.mp hx with hx | hx
    · rcases List.mem_append.mp hx with hx | hx
      · exact hInv.bounded x (List.mem_append_left _
          (List.mem_append_left _ ((erased_tasks_sublist _ t).mem hx)))
      · rw [tasks_addTask] at hx
        rcases List.mem_append.mp hx with hx | hx
        · exact hInv.bounded x (List.mem_append_left _
            (List.mem_append_right _ hx))
        · rw [List.mem_singleton.mp hx]
          exact hInv.bounded t (List.mem_append_left _
            (List.mem_append_left _ ht))
    · exact hInv.bounded x (List.mem_append_right _ hx)

theorem inv_move_run_to_fin [DecidableEq V] {m : TaskManager V} {t : Task V}
    (hInv : m.Inv) (ht : t ∈ m.running_tasks.tasks) (e : Option Int)
    (c : Option Bool) (res : List (String × StoredValue V))
    (tb : List (List (Task V))) :
    TaskManager.Inv { m with
      results := res,
      running_tasks := m.running_tasks.erased t,
      finished_tasks := m.finished_tasks.addTask
        { t with end_time := e, completed := c } false,
      tasks_by_process := tb } := by
  have hid : t.id ∈ qids m.running_tasks := List.mem_map_of_mem Task.id ht
  have hfresh : t.id ∉ qids m.finished_tasks := hInv.disj_rf t.id hid
  have hqf : qids (m.finished_tasks.addTask
      { t with end_time := e, completed := c } false)
      = qids m.finished_tasks ++ [t.id] := qids_addTask _ _ _
  constructor
  · exact hInv.wq
  · exact erased_consistent hInv.rq ht
  · exact addTask_consistent false hInv.fq hfresh
  · intro i hi
    rw [mem_qids_erased hInv.rq ht]
    rintro ⟨h1, _⟩
    exact hInv.disj_wr i hi h1
  · intro i hi
    rw [hqf]
    intro hmem
    rcases List.mem_append.mp hmem with h | h
    · exact hInv.disj_wf i hi h
    · have hit : i = t.id := List.mem_singleton.mp h
      subst hit
      exact hInv.disj_wr t.id hi hid
  · intro i hi
    rw [mem_qids_erased hInv.rq ht] at hi
    rw [hqf]
    intro hmem
    rcases List.mem_append.mp hmem with h | h
    · exact hInv.disj_rf i hi.1 h
    · exact hi.2 (List.mem_singleton.mp h)
  · intro x hx
    rcases List.mem_append.mp hx with hx | hx
    · rcases List.mem_append.mp hx with hx | hx
      · exact hInv.bounded x (List.mem_append_left _
          (List.mem_append_left _ hx))
      · exact hInv.bounded x (List.mem_append_left _
          (List.mem_append_right _ ((erased_tasks_sublist _ t).mem hx)))
    · rw [tasks_addTask] at hx
      rcases List.mem_append.mp hx with hx | hx
      · exact hInv.bounded x (List.mem_append_right _ hx)
      · rw [List.mem_singleton.mp hx]
        exact hInv.bounded t (List.mem_append_left _
          (List.mem_append_right _ ht))

theorem inv_move_run_to_wait [DecidableEq V] {m : TaskManager V} {t : Task V}
    (hInv : m.Inv) (ht : t ∈ m.running_tasks.tasks)
    (tb : List (List (Task V))) :
    TaskManager.Inv { m with
      running_tasks := m.running_tasks.erased t,
      waiting_tasks := m.waiting_tasks.addTask
        { t with start_time := none, handling_processor := none } true,
      tasks_by_process := tb } := by
  have hid : t.id ∈ qids m.running_tasks := List.mem_map_of_mem Task.id ht
  have hfresh : t.id ∉ qids m.waiting_tasks := by
    intro hmem
    exact hInv.disj_wr t.id hmem hid
  have hqw : qids (m.waiting_tasks.addTask
      { t with start_time := none, handling_processor := none } true)
      = qids m.waiting_tasks ++ [t.id] := qids_addTask _ _ _
  constructor
  · exact addTask_consistent true hInv.wq hfresh
  · exact erased_consistent hInv.rq ht
  · exact hInv.fq
  · intro i hi
    rw [hqw] at hi
    rw [mem_qids_erased hInv.rq ht]
    rintro ⟨h1, h2⟩
    rcases List.mem_append.mp hi with h | h
    · exact hInv.disj_wr i h h1
    · exact h2 (List.mem_singleton.mp h)
  · intro i hi
    rw [hqw] at hi
    rcases List.mem_append.mp hi with h | h
    · exact hInv.disj_wf i h
    · have hit : i = t.id := List.mem_singleton.mp h
      subst hit
      exact hInv.disj_rf t.id hid
  · intro i hi
    rw [mem_qids_erased hInv.rq ht] at hi
    exact hInv.disj_rf i hi.1
  · intro x hx
    rcases List.mem_append.mp hx with hx | hx
    · rcases List.mem_append.mp hx with hx | hx
      · rw [tasks_addTask] at hx
        rcases List.mem_append.mp hx with hx | hx
        · exact hInv.bounded x (List.mem_append_left _
            (List.mem_append_left _ hx))
        · rw [List.mem_singleton.mp hx]
          exact hInv.bounded t (List.mem_append_left _
            (List.mem_append_right _ ht))
      · exact hInv.bounded x (List.mem_append_left _
          (List.mem_append_right _ ((erased_tasks_sublist _ t).mem hx)))
    · exact hInv.bounded x (List.mem_append_right _ hx)

theorem inv_drop_fin [DecidableEq V] {m : TaskManager V} {t : Task V}
    (hInv : m.Inv) (ht : t ∈ m.finished_tasks.tasks)
    (res : List (String × StoredValue V)) :
    TaskManager.Inv { m with
      finished_tasks := m.finished_tasks.erased t,
      results := res } := by
  constructor
  · exact hInv.wq
  · exact hInv.rq
  · exact erased_consistent hInv.fq ht
  · exact hInv.disj_wr
  · intro i hi
    rw [mem_qids_erased hInv.fq ht]
    rintro ⟨h1, _⟩
    exact hInv.disj_wf i hi h1
  · intro i hi
    rw [mem_qids_erased hInv.fq ht]
    rintro ⟨h1, _⟩
    exact hInv.disj_rf i hi h1
  · intro x hx
    rcases List.mem_append.mp hx with hx | hx
    · rcases List.mem_append.mp hx with hx | hx
      · exact hInv.bounded x (List.mem_append_left _
          (List.mem_append_left _ hx))
      · exact hInv.bounded x (List.mem_append_left _
          (List.mem_append_right _ hx))
    · exact hInv.bounded x (List.mem_append_right _
        ((erased_tasks_sublist _ t).mem hx))

theorem consistent_terminate {q : TaskQueue V} (hc : q.Consistent) :
    (q.terminateWaitingThreads).Consistent :=
  ⟨hc.ids_nodup, hc.idkeys_nodup, hc.tag_perm, hc.id_find⟩

theorem addTaskRequest_inv {m : TaskManager V} (hInv : m.Inv) (tag : String)
    (p : V) (pid : Option Nat) (now : Int) :
    ((m.addTaskRequest tag p pid now).2).Inv := by
  have hfreshAll : ∀ x ∈ m.waiting_tasks.tasks ++ m.running_tasks.tasks
      ++ m.finished_tasks.tasks, x.id ≠ tag ++ "_" ++ Nat.repr m.id_counter := by
    intro x hx hq
    obtain ⟨n, hn, hid⟩ := hInv.bounded x hx
    rw [hid] at hq
    have := (taskId_inj hq).2
    omega
  have hfresh : (tag ++ "_" ++ Nat.repr m.id_counter) ∉ qids m.waiting_tasks := by
    intro hmem
    obtain ⟨x, hx, hxi⟩ := List.mem_map.mp hmem
    exact hfreshAll x (List.mem_append_left _ (List.mem_append_left _ hx)) hxi
  have hqw : qids ((m.addTaskRequest tag p pid now).2).waiting_tasks
      = qids m.waiting_tasks ++ [tag ++ "_" ++ Nat.repr m.id_counter] :=
    qids_addTask _ _ _
  constructor
  · exact addTask_consistent false hInv.wq hfresh
  · exact hInv.rq
  · exact hInv.fq
  · intro i hi
    rw [hqw] at hi
    rcases List.mem_append.mp hi with h | h
    · exact hInv.disj_wr i h
    · have hit := List.mem_singleton.mp h
      subst hit
      intro hmem
      obtain ⟨x, hx, hxi⟩ := List.mem_map.mp hmem
      exact hfreshAll x (List.mem_append_left _ (List.mem_append_right _ hx)) hxi
  · intro i hi
    rw [hqw] at hi
    rcases List.mem_append.mp hi with h | h
    · exact hInv.disj_wf i h
    · have hit := List.mem_singleton.mp h
      subst hit
      intro hmem
      obtain ⟨x, hx, hxi⟩ := List.mem_map.mp hmem
      exact hfreshAll x (List.mem_append_right _ hx) hxi
  · exact hInv.disj_rf
  · intro x hx
    simp only [TaskManager.addTaskRequest] at hx
    rcases List.mem_append.mp hx with hx | hx
    · rcases List.mem_append.mp hx with hx | hx
      · rw [tasks_addTask] at hx
        rcases List.mem_append.mp hx with hx | hx
        · obtain ⟨n, hn, hid⟩ := hInv.bounded x
            (List.mem_append_left _ (List.mem_append_left _ hx))
          exact ⟨n, Nat.lt_succ_of_lt hn, hid⟩
        · rw [List.mem_singleton.mp hx]
          exact ⟨m.id_counter, Nat.lt_succ_self _, rfl⟩
      · obtain ⟨n, hn, hid⟩ := hInv.bounded x
          (List.mem_append_left _ (List.mem_append_right _ hx))
        exact ⟨n, Nat.lt_succ_of_lt hn, hid⟩
    · obtain ⟨n, hn, hid⟩ := hInv.bounded x (List.mem_append_right _ hx)
      exact ⟨n, Nat.lt_succ_of_lt hn, hid⟩

theorem getAnyTask_inv [DecidableEq V] {m : TaskManager V} {pid : Option Nat}
    {now : Int} {out : String × String × V} {m' : TaskManager V}
    (hInv : m.Inv) (h : m.getAnyTask pid now = Except.ok (out, m')) :
    m'.Inv := by
  obtain ⟨t, wq, tb, hf, hout, hm⟩ := getAnyTask_shape h
  obtain ⟨hhead, ht, hwq⟩ := firstTask_ok_inv hInv.wq hf
  subst hwq
  subst hm
  exact inv_move_wait_to_run hInv ht pid now tb

theorem getTaskWithTag_inv [DecidableEq V] {m : TaskManager V} {tag : String}
    {pid : Option Nat} {now : Int} {out : String × V} {m' : TaskManager V}
    (hInv : m.Inv) (h : m.getTaskWithTag tag pid now = Except.ok (out, m')) :
    m'.Inv := by
  obtain ⟨t, wq, tb, hf, hout, hm⟩ := getTaskWithTag_shape h
  obtain ⟨hhead, ht, htag, hwq⟩ := firstTaskWithTag_ok_inv hInv.wq hf
  subst hwq
  subst hm
  exact inv_move_wait_to_run hInv ht pid now tb

theorem storeResult_inv [DecidableEq V] {m : TaskManager V} {i : String}
    {r : V} {now : Int} {m' : TaskManager V}
    (hInv : m.Inv) (h : m.storeResult i r now = Except.ok m') : m'.Inv := by
  obtain ⟨t, rq, tb, hw, hm⟩ := storeResult_shape h
  obtain ⟨ht, hid, hrq⟩ := taskWithId_ok_inv hInv.rq hw
  subst hrq
  subst hm
  exact inv_move_run_to_fin hInv ht (some now) (some true) _ tb

theorem storeException_inv [DecidableEq V] {m : TaskManager V} {i : String}
    {e tb₀ : V} {now : Int} {m' : TaskManager V}
    (hInv : m.Inv) (h : m.storeException i e tb₀ now = Except.ok m') :
    m'.Inv := by
  obtain ⟨t, rq, tb, hw, hm⟩ := storeException_shape h
  obtain ⟨ht, hid, hrq⟩ := taskWithId_ok_inv hInv.rq hw
  subst hrq
  subst hm
  exact inv_move_run_to_fin hInv ht (some now) (some false) _ tb

theorem returnTask_inv [DecidableEq V] {m : TaskManager V} {i : String}
    {m' : TaskManager V}
    (hInv : m.Inv) (h : m.returnTask i = Except.ok m') : m'.Inv := by
  obtain ⟨t, rq, tb, hw, hm⟩ := returnTask_shape h
  obtain ⟨ht, hid, hrq⟩ := taskWithId_ok_inv hInv.rq hw
  subst hrq
  subst hm
  exact inv_move_run_to_wait hInv ht tb

theorem getAnyResult_inv [DecidableEq V] {m : TaskManager V}
    {out : String × String × StoredValue V} {m' : TaskManager V}
    (hInv : m.Inv) (h : m.getAnyResult = Except.ok (out, m')) : m'.Inv := by
  obtain ⟨t, fq, r, hf, hr, hc, hout, hm⟩ := getAnyResult_shape h
  obtain ⟨hhead, ht, hfq⟩ := firstTask_ok_inv hInv.fq hf
  subst hfq
  subst hm
  exact inv_drop_fin hInv ht _

theorem getResultWithTag_inv [DecidableEq V] {m : TaskManager V}
    {tag : String} {out : String × StoredValue V} {m' : TaskManager V}
    (hInv : m.Inv) (h : m.getResultWithTag tag = Except.ok (out, m')) :
    m'.Inv := by
  obtain ⟨t, fq, r, hf, hr, hc, hout, hm⟩ := getResultWithTag_shape h
  obtain ⟨hhead, ht, htag, hfq⟩ := firstTaskWithTag_ok_inv hInv.fq hf
  subst hfq
  subst hm
  exact inv_drop_fin hInv ht _

theorem foldlM_inv [DecidableEq V] {α : Type}
    {f : TaskManager V → α → Except (PyErr V) (TaskManager V)}
    (hf : ∀ (m : TaskManager V) a m', m.Inv → f m a = Except.ok m' → m'.Inv) :
    ∀ (l : List α) (m m' : TaskManager V), m.Inv →
      List.foldlM f m l = Except.ok m' → m'.Inv := by
  intro l
  induction l with
  | nil =>
    intro m m' hInv h
    simp only [List.foldlM_nil] at h
    cases h
    exact hInv
  | cons a rest ih =>
    intro m m' hInv h
    rw [List.foldlM_cons] at h
    obtain ⟨m₁, h1, h2⟩ := except_bind_ok_inv h
    exact ih m₁ m' (hf m a m₁ hInv h1) h2

theorem unregisterProcess_inv [DecidableEq V] {m : TaskManager V} {pid : Nat}
    {m' : TaskManager V}
    (hInv : m.Inv) (h : m.unregisterProcess pid = Except.ok m') : m'.Inv := by
  unfold TaskManager.unregisterProcess at h
  cases ha : pyRemoveFirst? (fun pr => pr == pid) m.active_processes with
  | none =>
    rw [ha] at h
    simp only [except_error_bind] at h
    exact Except.noConfusion h
  | some active' =>
    rw [ha] at h
    simp only [except_ok_bind, pure_bind] at h
    cases hidx : m.tasks_by_process[pid]? with
    | none =>
      rw [hidx] at h
      simp only [except_error_bind] at h
      exact Except.noConfusion h
    | some tasks =>
      rw [hidx] at h
      simp only [except_ok_bind, pure_bind] at h
      obtain ⟨m₂, hf2, hg⟩ := except_bind_ok_inv h
      have hInv1 : TaskManager.Inv { m with
          active_processes := active',
          tasks_by_process := m.tasks_by_process.set pid [] } :=
        ⟨hInv.wq, hInv.rq, hInv.fq, hInv.disj_wr, hInv.disj_wf,
          hInv.disj_rf, hInv.bounded⟩
      have hInv2 : m₂.Inv := foldlM_inv
        (fun m a m' hi hh => returnTask_inv hi hh) tasks _ m₂ hInv1 hf2
      cases hwd : m₂.watchdog with
      | none =>
        rw [hwd] at hg
        cases hg
        exact hInv2
      | some w =>
        rw [hwd] at hg
        cases hg
        exact ⟨hInv2.wq, hInv2.rq, hInv2.fq, hInv2.disj_wr, hInv2.disj_wf,
          hInv2.disj_rf, hInv2.bounded⟩

theorem watchdogCycle_inv [DecidableEq V] {m : TaskManager V} {now : Int}
    {m' : TaskManager V}
    (hInv : m.Inv) (h : m.watchdogCycle now = Except.ok m') : m'.Inv := by
  unfold TaskManager.watchdogCycle at h
  cases hw : m.watchdog with
  | none =>
    rw [hw] at h
    cases h
    exact hInv
  | some w =>
    rw [hw] at h
    obtain ⟨dead, h1, h2⟩ := except_bind_ok_inv h
    exact foldlM_inv (fun m a m' hi hh => unregisterProcess_inv hi hh)
      dead m m' hInv h2

theorem step_inv [DecidableEq V] {op : Op V} {m m' : TaskManager V}
    (hInv : m.Inv) (h : step op m = Except.ok m') : m'.Inv := by
  cases op with
  | registerProcess pd now =>
    cases h
    cases pd with
    | none =>
      exact ⟨hInv.wq, hInv.rq, hInv.fq, hInv.disj_wr, hInv.disj_wf,
        hInv.disj_rf, hInv.bounded⟩
    | some period =>
      exact ⟨hInv.wq, hInv.rq, hInv.fq, hInv.disj_wr, hInv.disj_wf,
        hInv.disj_rf, hInv.bounded⟩
  | unregisterProcess pid => exact unregisterProcess_inv hInv h
  | ping pid now =>
    cases h
    unfold TaskManager.ping
    cases m.watchdog with
    | none => exact hInv
    | some w =>
      exact ⟨hInv.wq, hInv.rq, hInv.fq, hInv.disj_wr, hInv.disj_wf,
        hInv.disj_rf, hInv.bounded⟩
  | addTaskRequest tag p pid now =>
    cases h
    exact addTaskRequest_inv hInv tag p pid now
  | getAnyTask pid now =>
    obtain ⟨x, h1, h2⟩ := except_bind_ok_inv h
    obtain ⟨o, mm⟩ := x
    simp only [pure_bind] at h2
    cases h2
    exact getAnyTask_inv hInv h1
  | getTaskWithTag tag pid now =>
    obtain ⟨x, h1, h2⟩ := except_bind_ok_inv h
    obtain ⟨o, mm⟩ := x
    simp only [pure_bind] at h2
    cases h2
    exact getTaskWithTag_inv hInv h1
  | storeResult i r now => exact storeResult_inv hInv h
  | storeException i e tb now => exact storeException_inv hInv h
  | returnTask i => exact returnTask_inv hInv h
  | getAnyResult =>
    obtain ⟨x, h1, h2⟩ := except_bind_ok_inv h
    obtain ⟨o, mm⟩ := x
    simp only [pure_bind] at h2
    cases h2
    exact getAnyResult_inv hInv h1
  | getResultWithTag tag =>
    obtain ⟨x, h1, h2⟩ := except_bind_ok_inv h
    obtain ⟨o, mm⟩ := x
    simp only [pure_bind] at h2
    cases h2
    exact getResultWithTag_inv hInv h1
  | terminate =>
    cases h
    exact ⟨consistent_terminate hInv.wq, consistent_terminate hInv.rq,
      consistent_terminate hInv.fq, hInv.disj_wr, hInv.disj_wf,
      hInv.disj_rf, hInv.bounded⟩
  | watchdogCycle now => exact watchdogCycle_inv hInv h

theorem init_inv (V : Type) : (TaskManager.init V).Inv := by
  refine ⟨init_consistent V, init_consistent V, init_consistent V,
    ?_, ?_, ?_, ?_⟩ <;> intro x hx <;> cases hx

theorem runOps_inv [DecidableEq V] {ops : List (Op V)} {m m' : TaskManager V}
    (hInv : m.Inv) (h : runOps ops m = Except.ok m') : m'.Inv := by
  induction ops generalizing m with
  | nil =>
    unfold runOps at h
    simp only [List.foldlM_nil] at h
    cases h
    exact hInv
  | cons op rest ih =>
    unfold runOps at h
    rw [List.foldlM_cons] at h
    obtain ⟨m₁, h1, h2⟩ := except_bind_ok_inv h
    exact ih (step_inv hInv h1) h2

/-- Claim C7: after any successful sequence of `TaskManager` operations from
the initial state, no task id sits in two queues' primary lists at once, and
in each queue a task is in the primary list exactly when it is in the by-tag
bucket under its own tag, and exactly when the by-id dict maps its own id to
it — two separate equivalences, so a removed task is absent from the primary
list, absent from the by-tag bucket, and absent from the by-id dict, each
individually. -/
theorem claim7 (V : Type) [DecidableEq V] (ops : List (Op V))
    (m' : TaskManager V)
    (h : runOps ops (TaskManager.init V) = Except.ok m') :
    (∀ i, ¬(i ∈ qids m'.waiting_tasks ∧ i ∈ qids m'.running_tasks)
       ∧ ¬(i ∈ qids m'.waiting_tasks ∧ i ∈ qids m'.finished_tasks)
       ∧ ¬(i ∈ qids m'.running_tasks ∧ i ∈ qids m'.finished_tasks))
    ∧ (∀ q, (q = m'.waiting_tasks ∨ q = m'.running_tasks
          ∨ q = m'.finished_tasks) →
        ∀ t, (t ∈ q.tasks ↔ t ∈ tagList q t.tag)
          ∧ (t ∈ q.tasks ↔ dictGet? t.id q.tasks_by_id = some t)) := by
  have hInv : m'.Inv := runOps_inv (init_inv V) h
  refine ⟨?_, ?_⟩
  · intro i
    exact ⟨fun hc => hInv.disj_wr i hc.1 hc.2,
      fun hc => hInv.disj_wf i hc.1 hc.2,
      fun hc => hInv.disj_rf i hc.1 hc.2⟩
  · rintro q (hq | hq | hq) t <;> subst hq
    · exact ⟨consistent_mem_iff_tag hInv.wq t, consistent_mem_iff_id hInv.wq t⟩
    · exact ⟨consistent_mem_iff_tag hInv.rq t, consistent_mem_iff_id hInv.rq t⟩
    · exact ⟨consistent_mem_iff_tag hInv.fq t, consistent_mem_iff_id hInv.fq t⟩

/-- Witness for C7 on a short concrete run: a single submitted task. -/
theorem claim7_witness :
    (∀ i, ¬(i ∈ qids ((TaskManager.init Nat).addTaskRequest "a" 1 none 0).2.waiting_tasks
            ∧ i ∈ qids ((TaskManager.init Nat).addTaskRequest "a" 1 none 0).2.running_tasks)
       ∧ ¬(i ∈ qids ((TaskManager.init Nat).addTaskRequest "a" 1 none 0).2.waiting_tasks
            ∧ i ∈ qids ((TaskManager.init Nat).addTaskRequest "a" 1 none 0).2.finished_tasks)
       ∧ ¬(i ∈ qids ((TaskManager.init Nat).addTaskRequest "a" 1 none 0).2.running_tasks
            ∧ i ∈ qids ((TaskManager.init Nat).addTaskRequest "a" 1 none 0).2.finished_tasks))
    ∧ (∀ q, (q = ((TaskManager.init Nat).addTaskRequest "a" 1 none 0).2.waiting_tasks
          ∨ q = ((TaskManager.init Nat).addTaskRequest "a" 1 none 0).2.running_tasks
          ∨ q = ((TaskManager.init Nat).addTaskRequest "a" 1 none 0).2.finished_tasks) →
        ∀ t, (t ∈ q.tasks ↔ t ∈ tagList q t.tag)
          ∧ (t ∈ q.tasks ↔ dictGet? t.id q.tasks_by_id = some t)) :=
  claim7 Nat [Op.addTaskRequest "a" 1 none 0]
    ((TaskManager.init Nat).addTaskRequest "a" 1 none 0).2 rfl

end TaskManagerPy
